import Mathlib

/-
Verification of the embedded NdArray field layer of gt4py
(`src/gt4py/next/embedded/nd_array_field.py`) and of the error paths of the
program parser front-end (`src/gt4py/next/ffront/func_to_past.py`).

The data model (dimensions, unit ranges, domains) lives in `gt4py.next.common`
and `gt4py.next.embedded.common`, which are not part of the given sources;
those parts are modelled from the specification and marked as such in their
doc comments.  Arrays are modelled as flat row-major lists of integers with an
explicit shape, mirroring the NumPy arrays the source operates on.
-/

namespace G4

/-- Kind tag of a dimension: horizontal, vertical, or a local neighbor-list
dimension.  Modelled from the spec: `Dimension` is "an identifier + kind tag
(`HORIZONTAL`, `VERTICAL`, `LOCAL`)" (`common.DimensionKind` is not in the
given sources). -/
inductive DimensionKind where
  | horizontal
  | vertical
  | localDim
deriving DecidableEq

/-- Modelled from the spec: a dimension is "an identifier + kind tag",
immutable, compared by name+kind (`common.Dimension` is not in the given
sources). -/
structure Dimension where
  value : String
  kind : DimensionKind
deriving DecidableEq

instance : Inhabited Dimension := ⟨⟨"", .horizontal⟩⟩

/-- Modelled from the spec: a `UnitRange` bound is a finite integer or an
infinite sentinel (left- and/or right-infinite ranges are allowed);
`common.Infinity` is not in the given sources. -/
inductive Bound where
  | ninf
  | fin (v : Int)
  | pinf
deriving DecidableEq

/-- Maximum of two bounds: a finite bound wins against `ninf`, `pinf` wins
against everything.  Modelled from the spec rule "infinite bound takes
precedence only when both are infinite in the same direction, otherwise finite
bound wins" (for the start bound of an intersection). -/
def Bound.bmax : Bound → Bound → Bound
  | .ninf, b => b
  | a, .ninf => a
  | .pinf, _ => .pinf
  | _, .pinf => .pinf
  | .fin x, .fin y => .fin (max x y)

/-- Minimum of two bounds, dual to `Bound.bmax`. -/
def Bound.bmin : Bound → Bound → Bound
  | .pinf, b => b
  | a, .pinf => a
  | .ninf, _ => .ninf
  | _, .ninf => .ninf
  | .fin x, .fin y => .fin (min x y)

/-- Addition of bounds; the infinite sentinels absorb, matching the
special-cased sentinel arithmetic the spec describes. -/
def Bound.addB : Bound → Bound → Bound
  | .ninf, _ => .ninf
  | _, .ninf => .ninf
  | .pinf, _ => .pinf
  | _, .pinf => .pinf
  | .fin x, .fin y => .fin (x + y)

/-- Test `b ≤ v` for a bound `b` and an integer `v`. -/
def Bound.leI : Bound → Int → Bool
  | .ninf, _ => true
  | .pinf, _ => false
  | .fin s, v => decide (s ≤ v)

/-- Test `v < b` for an integer `v` and a bound `b`. -/
def Bound.gtI : Bound → Int → Bool
  | .ninf, _ => false
  | .pinf, _ => true
  | .fin s, v => decide (v < s)

/-- Modelled from the spec: a half-open integer interval `[start, stop)` whose
bounds may be infinite (`common.UnitRange` is not in the given sources). -/
structure UnitRange where
  start : Bound
  stop : Bound
deriving DecidableEq

instance : Inhabited UnitRange := ⟨⟨.fin 0, .fin 0⟩⟩

/-- The fully unbounded range, as produced by `UnitRange.infinite()`. -/
def urInfinite : UnitRange := ⟨.ninf, .pinf⟩

/-- Whether both bounds are finite. -/
def UnitRange.isFinite : UnitRange → Bool
  | ⟨.fin _, .fin _⟩ => true
  | _ => false

/-- Length of a finite range (`0` for an unordered/degenerate pair; an
infinite range has no length in the source, where `len` raises). -/
def UnitRange.len : UnitRange → Nat
  | ⟨.fin a, .fin b⟩ => (b - a).toNat
  | _ => 0

/-- A range is empty when it is finite with `stop ≤ start`; ranges with an
infinite bound are never empty. -/
def UnitRange.isEmpty : UnitRange → Bool
  | ⟨.fin a, .fin b⟩ => decide (b ≤ a)
  | _ => false

/-- Intersection of two unit ranges: maximum of starts, minimum of stops.
Modelled from the spec rules of §4.1. -/
def UnitRange.inter (r s : UnitRange) : UnitRange :=
  ⟨Bound.bmax r.start s.start, Bound.bmin r.stop s.stop⟩

/-- Shift a range by a bound (source: `rr + ar.start`, where the start may be
an infinite sentinel). -/
def UnitRange.shiftB (r : UnitRange) (b : Bound) : UnitRange :=
  ⟨Bound.addB r.start b, Bound.addB r.stop b⟩

/-- Modelled from the spec: a `NamedRange` is a `(Dimension, UnitRange)`
pair. -/
abbrev NamedRange := Dimension × UnitRange

/-- Modelled from the spec: a `Domain` is an ordered sequence of named ranges,
one per dimension, order matching array axis order. -/
abbrev Domain := List NamedRange

/-- The ordered dimensions of a domain. -/
def dims (d : Domain) : List Dimension := d.map Prod.fst

/-- Index of a dimension in a domain (`Domain.dim_index`). -/
def dimIndex (d : Domain) (x : Dimension) : Option Nat :=
  d.findIdx? (fun nr => decide (nr.1 = x))

/-- The range associated to a dimension of a domain, if present. -/
def lookupRange (d : Domain) (x : Dimension) : Option UnitRange :=
  (d.find? (fun nr => decide (nr.1 = x))).map Prod.snd

/-- A domain is empty when any of its ranges is empty. -/
def domainIsEmpty (d : Domain) : Bool := d.any (fun nr => nr.2.isEmpty)

/-- The array shape induced by a domain (`Domain.shape`). -/
def domainShape (d : Domain) : List Nat := d.map (fun nr => nr.2.len)

/-- Whether every range of the domain is finite (`Domain.is_finite`). -/
def domainFinite (d : Domain) : Bool := d.all (fun nr => nr.2.isFinite)

/-- Replace the named range at position `i` by a list of named ranges
(`Domain.replace` with a positional index). -/
def replaceAt (d : Domain) (i : Nat) (rs : List NamedRange) : Domain :=
  d.take i ++ rs ++ d.drop (i + 1)

/-- Replace the named range of dimension `dim` (`Domain.replace` with a
dimension key). -/
def replaceDim (d : Domain) (dim : Dimension) (nr : NamedRange) : Domain :=
  d.map (fun p => if p.1 = dim then nr else p)

/-- Modelled from the spec: dimension promotion used by broadcasting — the
union of the dimension lists, keeping the first list's order and appending the
unseen dimensions of the second in order (`common.promote_dims` is not in the
given sources). -/
def promoteDims (as bs : List Dimension) : List Dimension :=
  as ++ bs.filter (fun b => decide (b ∉ as))

/-- Modelled from the spec: binary domain intersection — promote the two
dimension lists, then intersect per dimension, an absent dimension counting as
unrestricted (`common.Domain.__and__` is not in the given sources). -/
def domainAnd (a b : Domain) : Domain :=
  (promoteDims (dims a) (dims b)).map (fun dim =>
    (dim, UnitRange.inter ((lookupRange a dim).getD urInfinite)
      ((lookupRange b dim).getD urInfinite)))

/-- Modelled from the spec: `embedded_common.domain_intersection`, the fold of
pairwise domain intersection starting from the empty domain (the
`gt4py.next.embedded.common` module is not in the given sources). -/
def domainIntersection (ds : List Domain) : Domain :=
  ds.foldl domainAnd ([] : Domain)

/-- Modelled from the spec: `embedded_common.sub_domain` restricted to
absolute named-range index specifications — each indexed dimension's range
replaces the domain's range, other dimensions are kept (the
`gt4py.next.embedded.common` module is not in the given sources). -/
def subDomainAbs (d : Domain) (idx : Domain) : Domain :=
  d.map (fun nr =>
    match lookupRange idx nr.1 with
    | some r => (nr.1, r)
    | none => nr)

/-- Modelled from the spec: `embedded_common.restrict_to_intersection` — each
domain keeps its own range on the ignored dimensions and takes the common
intersection range elsewhere (the `gt4py.next.embedded.common` module is not
in the given sources). -/
def restrictToIntersection (doms : List Domain) (ignore : List Dimension) :
    List Domain :=
  let inter := domainIntersection
    (doms.map (fun d => d.filter (fun nr => decide (nr.1 ∉ ignore))))
  doms.map (fun d => d.map (fun nr =>
    if nr.1 ∈ ignore then nr else (nr.1, (lookupRange inter nr.1).getD nr.2)))

/-! ## Flat row-major n-dimensional arrays (the NumPy arrays of the source) -/

/-- Concatenation of the images of `f`, used to enumerate multi-indices. -/
def catMap (f : α → List β) : List α → List β
  | [] => []
  | a :: as => f a ++ catMap f as

/-- An n-dimensional array: a shape and the flat row-major data. -/
structure NDArray (α : Type) where
  shape : List Nat
  data : List α
deriving DecidableEq

/-- Row-major flattening of a multi-index against a shape. -/
def flatIdx : List Nat → List Nat → Nat
  | _ :: ss, i :: is => i * ss.prod + flatIdx ss is
  | _, _ => 0

/-- All multi-indices of a shape, in row-major order. -/
def allIdx : List Nat → List (List Nat)
  | [] => [[]]
  | s :: ss => catMap (fun i => (allIdx ss).map (fun ix => i :: ix)) (List.range s)

/-- Element of an array at a multi-index (out-of-range gives the default). -/
def aget [Inhabited α] (a : NDArray α) (ix : List Nat) : α :=
  a.data.getD (flatIdx a.shape ix) default

/-! ## Array operations used by the source -/

/-- One entry of a NumPy basic-indexing tuple: a `start:stop` slice (step 1,
entries optional as in Python) or `None`/`np.newaxis` inserting an axis. -/
inductive AxisSel where
  | slc (start stop : Option Int)
  | newaxis
deriving DecidableEq

/-- Python slice-bound semantics on an axis of length `n`: negative values
count from the end, results are clamped into `[0, n]`. -/
def pyClamp (n : Nat) (v : Int) : Nat :=
  if v < 0 then (max 0 (n + v)).toNat else min v.toNat n

/-- Effective slice start (`0` when absent). -/
def pyStart (n : Nat) : Option Int → Nat
  | none => 0
  | some v => pyClamp n v

/-- Effective slice stop (`n` when absent). -/
def pyStop (n : Nat) : Option Int → Nat
  | none => n
  | some v => pyClamp n v

/-- Shape of the result of basic indexing: slices shrink the matched axis,
`newaxis` inserts a unit axis, remaining axes are kept whole. -/
def selShape : List AxisSel → List Nat → List Nat
  | .newaxis :: rest, sh => 1 :: selShape rest sh
  | .slc a b :: rest, s :: sh => (pyStop s b - pyStart s a) :: selShape rest sh
  | .slc _ _ :: rest, [] => selShape rest []
  | [], sh => sh

/-- Translate an output multi-index of a basic-indexing result back to an
input multi-index. -/
def selMap : List AxisSel → List Nat → List Nat → List Nat
  | .newaxis :: rest, sh, _ :: ix => selMap rest sh ix
  | .slc a _ :: rest, s :: sh, i :: ix => (pyStart s a + i) :: selMap rest sh ix
  | [], _, ix => ix
  | _, _, _ => []

/-- NumPy basic indexing `a[sels]` for step-1 slices and `newaxis`. -/
def ndIndex [Inhabited α] (a : NDArray α) (sels : List AxisSel) : NDArray α :=
  let sh' := selShape sels a.shape
  ⟨sh', (allIdx sh').map (fun ix => aget a (selMap sels a.shape ix))⟩

/-- Elementwise map (a NumPy unary ufunc). -/
def ndMap (f : α → β) (a : NDArray α) : NDArray β := ⟨a.shape, a.data.map f⟩

/-- Broadcast-aware element access: axes of extent 1 repeat their single
entry, as in NumPy broadcasting. -/
def bget [Inhabited α] (a : NDArray α) (ix : List Nat) : α :=
  aget a (List.zipWith (fun i s => if s = 1 then 0 else i) ix a.shape)

/-- Broadcast result shape of two same-rank shapes. -/
def broadcastShape (s t : List Nat) : List Nat := List.zipWith max s t

/-- Elementwise combination with NumPy-style broadcasting of unit axes
(operands of equal rank, as produced by the source's domain broadcasting). -/
def ndZip [Inhabited α] [Inhabited β] (op : α → β → γ) (a : NDArray α)
    (b : NDArray β) : NDArray γ :=
  let sh := broadcastShape a.shape b.shape
  ⟨sh, (allIdx sh).map (fun ix => op (bget a ix) (bget b ix))⟩

/-- NumPy `broadcast_to`. -/
def ndBroadcastTo [Inhabited α] (a : NDArray α) (sh : List Nat) : NDArray α :=
  ⟨sh, (allIdx sh).map (fun ix => bget a ix)⟩

/-- Insert an element at position `k` of a list (used to rebuild the reduced
axis index). -/
def insAt : Nat → α → List α → List α
  | 0, x, l => x :: l
  | _ + 1, x, [] => [x]
  | k + 1, x, h :: t => h :: insAt k x t

/-- Reduction of a list of values by a binary operation, seeded with the
first element (`0` for the empty list, matching NumPy's empty sum; NumPy
`max`/`min` of an empty axis raise instead and are not exercised here). -/
def reduceList (op : Int → Int → Int) : List Int → Int
  | [] => 0
  | h :: t => t.foldl op h

/-- NumPy reduction (`sum`/`max`/`min`) along axis `k`. -/
def ndReduce (op : Int → Int → Int) (a : NDArray Int) (k : Nat) : NDArray Int :=
  let sh' := a.shape.take k ++ a.shape.drop (k + 1)
  let m := a.shape.getD k 0
  ⟨sh', (allIdx sh').map (fun ix =>
    reduceList op ((List.range m).map (fun j => aget a (insAt k j ix))))⟩

/-- NumPy `take` along axis `k` with an integer index array; negative indices
wrap around from the end (the source's `skip_value == -1` contract relies on
this wraparound). -/
def ndTake (a : NDArray Int) (ind : NDArray Int) (k : Nat) : NDArray Int :=
  let n := a.shape.getD k 0
  let sh' := a.shape.take k ++ ind.shape ++ a.shape.drop (k + 1)
  ⟨sh', (allIdx sh').map (fun ix =>
    let pre := ix.take k
    let mid := (ix.drop k).take ind.shape.length
    let post := ix.drop (k + ind.shape.length)
    let raw := aget ind mid
    let j := if raw < 0 then raw + (n : Int) else raw
    aget a (pre ++ j.toNat :: post))⟩

/-- Value of the concatenation of `parts` along axis `k` at axis position `i`
(with the other coordinates split into `pre`/`post`). -/
def pickVal [Inhabited α] :
    List (NDArray α) → Nat → Nat → List Nat → List Nat → α
  | [], _, _, _, _ => default
  | p :: ps, k, i, pre, post =>
    if i < p.shape.getD k 0 then aget p (pre ++ i :: post)
    else pickVal ps k (i - p.shape.getD k 0) pre post

/-- NumPy `concatenate` along axis `k`. -/
def ndConcatenate [Inhabited α] (parts : List (NDArray α)) (k : Nat) :
    NDArray α :=
  let total := (parts.map (fun p => p.shape.getD k 0)).sum
  let base := (parts.headD ⟨[], []⟩).shape
  let sh' := base.take k ++ total :: base.drop (k + 1)
  ⟨sh', (allIdx sh').map (fun ix =>
    pickVal parts k (ix.getD k 0) (ix.take k) (ix.drop (k + 1)))⟩

/-- Minimum of a nonempty list of naturals (`0` for the empty list; NumPy
raises on an empty reduction, which callers model separately). -/
def listMin : List Nat → Nat
  | [] => 0
  | h :: t => t.foldl min h

/-- Maximum of a nonempty list of naturals (`0` for the empty list). -/
def listMax : List Nat → Nat
  | [] => 0
  | h :: t => t.foldl max h

/-- Minimum of a nonempty list of integers (`xp.min` over a whole array). -/
def listIMin : List Int → Int
  | [] => 0
  | h :: t => t.foldl min h

/-- Maximum of a nonempty list of integers (`xp.max` over a whole array). -/
def listIMax : List Int → Int
  | [] => 0
  | h :: t => t.foldl max h

/-! ## Fields (`NdArrayField` of `nd_array_field.py`) -/

/-- Scalar kind of a field's dtype.  Array values are carried as integers
(booleans encoded as 0/1); the kind tag is what the dtype checks of the
source inspect. -/
inductive DTypeKind where
  | boolK
  | int64K
  | float64K
deriving DecidableEq

/-- Failure conditions of the embedded layer.  Python exception classes are
mapped one-to-one: `assertionError` covers `assert` failures (including the
`len()` call on an infinite range inside the `from_array` assert),
`valueError`/`typeError`/`notImplementedError`/`indexError` carry the raised
message, and `nonContiguousDomain` is `embedded_exceptions.NonContiguousDomain`. -/
inductive Err where
  | assertionError
  | valueError (msg : String)
  | typeError (msg : String)
  | notImplementedError (msg : String)
  | indexError
  | nonContiguousDomain (msg : String)
deriving DecidableEq

/-- `NdArrayField`: a domain together with a backend array (and its scalar
kind). -/
structure NdArrayField where
  dom : Domain
  dty : DTypeKind
  arr : NDArray Int
deriving DecidableEq

instance : Inhabited NdArrayField := ⟨⟨[], .int64K, ⟨[], []⟩⟩⟩

/-- `NdArrayField.from_array`: checks that the rank of the array matches the
domain and that every axis length equals the range length or is the
broadcastable placeholder `1` (the source's `assert` statements; the dtype
conversion through `xp.asarray` is the identity here, the scalar kind being
carried explicitly by the caller as the source carries `dtype`). -/
def from_array (data : NDArray Int) (domain : Domain) (dty : DTypeKind) :
    Except Err NdArrayField :=
  if data.shape.length ≠ domain.length then throw .assertionError
  else if ¬ (List.zipWith
      (fun (nr : NamedRange) s => s == 1 || (nr.2.isFinite && nr.2.len == s))
      domain data.shape).all id then throw .assertionError
  else pure ⟨domain, dty, data⟩

/-- `_broadcast`: keep existing dimensions (full slice), insert unit axes with
unrestricted ranges for new ones; identity when the dimension lists agree. -/
def broadcastF (f : NdArrayField) (newDims : List Dimension) : NdArrayField :=
  if dims f.dom = newDims then f
  else
    let sels := newDims.map (fun dim =>
      if dim ∈ dims f.dom then AxisSel.slc none none else AxisSel.newaxis)
    let newDomain : Domain := newDims.map (fun dim =>
      match lookupRange f.dom dim with
      | some r => (dim, r)
      | none => (dim, urInfinite))
    ⟨newDomain, f.dty, ndIndex f.arr sels⟩

/-- `_compute_slice` for a `UnitRange` entry: relative offsets against the
domain's start, `None` (unbounded) where the domain is infinite on that
side.  An infinite requested bound against a finite domain start has no
integer offset either (the source would produce sentinel arithmetic there)
and is also mapped to `None`. -/
def computeSlice (rng : UnitRange) (own : UnitRange) : AxisSel :=
  AxisSel.slc
    (match own.start, rng.start with
     | .fin b, .fin a => some (a - b)
     | _, _ => none)
    (match own.start, own.stop, rng.stop with
     | .fin b, .fin _, .fin a => some (a - b)
     | _, _, _ => none)

/-- `_get_slices_from_domain_slice`: one slice per domain dimension, full
slice where the dimension is not being restricted. -/
def getSlicesFromDomainSlice (domain : Domain) (ds : Domain) : List AxisSel :=
  domain.map (fun nr =>
    match lookupRange ds nr.1 with
    | some r => computeSlice r nr.2
    | none => AxisSel.slc none none)

/-- `NdArrayField.restrict` / `__getitem__` for an absolute domain index
specification: sub-domain computation plus array slicing (the relative and
integer-index forms of `AnyIndexSpec` are not needed by the claims). -/
def restrictF (f : NdArrayField) (index : Domain) : Except Err NdArrayField :=
  from_array (ndIndex f.arr (getSlicesFromDomainSlice f.dom index))
    (subDomainAbs f.dom index) f.dty

/-- An operand of a builtin operation: a field or a scalar. -/
inductive Operand where
  | fieldO (f : NdArrayField)
  | scalarO (v : Int)
deriving DecidableEq

/-- The domains of the field operands (scalars excluded). -/
def operandDomains (ops : List Operand) : List Domain :=
  ops.filterMap (fun o =>
    match o with
    | .fieldO f => some f.dom
    | .scalarO _ => none)

/-- The dtype kind of the first field operand (the source takes the array
class from the first field and the result dtype from the backend operation;
for the operations stated in the claims both operands have the same kind,
which is then also the result kind). -/
def firstFieldDty (ops : List Operand) : Option DTypeKind :=
  (ops.findSome? (fun o =>
    match o with
    | .fieldO f => some f.dty
    | .scalarO _ => none))

/-- Transformation of one operand by `_make_builtin`: a field equal to the
intersection passes through, otherwise it is broadcast to the intersection's
dimensions and sliced to its ranges; scalars pass through. -/
def transformOperand (inter : Domain) : Operand → NDArray Int ⊕ Int
  | .scalarO v => .inr v
  | .fieldO f =>
    if f.dom = inter then .inl f.arr
    else
      let fb := broadcastF f (dims inter)
      .inl (ndIndex fb.arr (getSlicesFromDomainSlice fb.dom inter))

/-- Apply a binary backend ufunc to two transformed operands, broadcasting a
scalar against an array as NumPy does. -/
def applyBin (op : Int → Int → Int) :
    NDArray Int ⊕ Int → NDArray Int ⊕ Int → NDArray Int
  | .inl a, .inl b => ndZip op a b
  | .inl a, .inr v => ndMap (fun x => op x v) a
  | .inr v, .inl b => ndMap (fun x => op v x) b
  | .inr v, .inr w => ⟨[], [op v w]⟩

/-- `_make_builtin` for a binary operator: intersect the field domains,
transform each operand, optionally reverse the operand order, apply the
backend operation and wrap the result over the intersection.  The source
asserts that at least one operand is a field (`_get_nd_array_class`). -/
def make_builtin_binary (op : Int → Int → Int) (reverse : Bool)
    (a b : Operand) : Except Err NdArrayField := do
  match firstFieldDty [a, b] with
  | none => throw .assertionError
  | some dty =>
    let inter := domainIntersection (operandDomains [a, b])
    let ta := transformOperand inter a
    let tb := transformOperand inter b
    let p := if reverse then (tb, ta) else (ta, tb)
    from_array (applyBin op p.1 p.2) inter dty

/-- `_make_builtin` for a unary operator. -/
def make_builtin_unary (op : Int → Int) (a : NdArrayField) :
    Except Err NdArrayField := do
  let inter := domainIntersection [a.dom]
  let ta := transformOperand inter (.fieldO a)
  let res :=
    match ta with
    | .inl arr => ndMap op arr
    | .inr v => ⟨[], [op v]⟩
  from_array res inter a.dty

/-- `__add__`. -/
def fieldAdd (a b : Operand) : Except Err NdArrayField :=
  make_builtin_binary (· + ·) false a b

/-- Boolean encoding of the logical ufuncs over the 0/1 integer carrier. -/
def logicalAndOp (x y : Int) : Int := if x ≠ 0 ∧ y ≠ 0 then 1 else 0

def logicalOrOp (x y : Int) : Int := if x ≠ 0 ∨ y ≠ 0 then 1 else 0

def logicalXorOp (x y : Int) : Int := if (x ≠ 0) ≠ (y ≠ 0) then 1 else 0

def invertOp (x : Int) : Int := if x = 0 then 1 else 0

/-- `__and__`: refuses non-boolean dtypes, otherwise dispatches the
`logical_and` builtin. -/
def fieldAnd (f : NdArrayField) (other : Operand) : Except Err NdArrayField :=
  if f.dty = DTypeKind.boolK then
    make_builtin_binary logicalAndOp false (.fieldO f) other
  else throw (.notImplementedError "__and__ not implemented for non-bool fields.")

/-- `__or__`. -/
def fieldOr (f : NdArrayField) (other : Operand) : Except Err NdArrayField :=
  if f.dty = DTypeKind.boolK then
    make_builtin_binary logicalOrOp false (.fieldO f) other
  else throw (.notImplementedError "__or__ not implemented for non-bool fields.")

/-- `__xor__`. -/
def fieldXor (f : NdArrayField) (other : Operand) : Except Err NdArrayField :=
  if f.dty = DTypeKind.boolK then
    make_builtin_binary logicalXorOp false (.fieldO f) other
  else throw (.notImplementedError "__xor__ not implemented for non-bool fields.")

/-- `__invert__`. -/
def fieldInvert (f : NdArrayField) : Except Err NdArrayField :=
  if f.dty = DTypeKind.boolK then make_builtin_unary invertOp f
  else throw (.notImplementedError "__invert__ not implemented for non-bool fields.")

/-! ## Connectivity fields, hypercube inference and remap -/

/-- `NdArrayConnectivityField`: a field of neighbor indices into the codomain
dimension, with an optional skip value. -/
structure NdArrayConnectivityField where
  dom : Domain
  arr : NDArray Int
  codomain : Dimension
  skip : Option Int
deriving DecidableEq

/-- The `ConnectivityKind` bitmask.  Modelled from the spec: "a `kind` bitmask
describing whether applying it changes structure, rank, or the dimension set"
(`common.ConnectivityKind` is not in the given sources); the three flags are
carried as booleans. -/
structure ConnectivityKind where
  modifyStructure : Bool
  modifyRank : Bool
  modifyDims : Bool
deriving DecidableEq

/-- `NdArrayConnectivityField.kind`: always `MODIFY_STRUCTURE`; adds
`MODIFY_RANK` and `MODIFY_DIMS` for higher-dimensional tables, and
`MODIFY_DIMS` when the codomain is not among the domain's dimensions. -/
def ndKind (c : NdArrayConnectivityField) : ConnectivityKind :=
  { modifyStructure := true
    modifyRank := decide (c.dom.length > 1)
    modifyDims := decide (c.dom.length > 1) || (dimIndex c.dom c.codomain).isNone }

/-- The selection mask of `_hypercube` at one index:
`(index_array >= image_range.start) & (index_array < image_range.stop)`. -/
def selectB (a : NDArray Int) (r : UnitRange) (ix : List Nat) : Bool :=
  Bound.leI r.start (aget a ix) && Bound.gtI r.stop (aget a ix)

/-- The positions of the `True` entries of the selection mask
(`xp.nonzero(select_mask)`), in row-major order. -/
def selectedIdx (a : NDArray Int) (r : UnitRange) : List (List Nat) :=
  (allIdx a.shape).filter (selectB a r)

/-- Per-axis lower corner of the bounding box (`xp.min(dim_nnz_indices)`). -/
def boxLo (a : NDArray Int) (r : UnitRange) (d : Nat) : Nat :=
  listMin ((selectedIdx a r).map (fun ix => ix.getD d 0))

/-- Per-axis upper coordinate of the bounding box (`xp.max(dim_nnz_indices)`). -/
def boxHi (a : NDArray Int) (r : UnitRange) (d : Nat) : Nat :=
  listMax ((selectedIdx a r).map (fun ix => ix.getD d 0))

/-- The per-axis bounding-box slices of the selected positions
(`slice(min, max + 1)` per source axis). -/
def boxOf (a : NDArray Int) (r : UnitRange) : List UnitRange :=
  (List.range a.shape.length).map (fun d =>
    ⟨.fin (boxLo a r d : Int), .fin ((boxHi a r d : Int) + 1)⟩)

/-- Whether a multi-index lies inside a list of per-axis ranges. -/
def inBox (box : List UnitRange) (ix : List Nat) : Bool :=
  (List.zipWith (fun (i : Nat) (rg : UnitRange) =>
    Bound.leI rg.start (i : Int) && Bound.gtI rg.stop (i : Int)) ix box).all id

/-- One entry of the bounding-box check: selected, or equal to the skip
value when one is given (`hcube |= ignore_mask[slices]`). -/
def selectedOrSkip (a : NDArray Int) (r : UnitRange) (skip : Option Int)
    (ix : List Nat) : Bool :=
  selectB a r ix ||
    (match skip with
     | some sv => aget a ix == sv
     | none => false)

/-- `_hypercube`: bounding box of the positions whose value lies in
`image_range`; `none` when some entry inside the box is neither selected nor
the skip value.  When no position at all is selected, the per-axis
`xp.min` reduces an empty array, which raises NumPy's zero-size `ValueError`
before any box exists. -/
def hypercube (a : NDArray Int) (r : UnitRange) (skip : Option Int) :
    Except Err (Option (List UnitRange)) :=
  if (selectedIdx a r).isEmpty then
    throw (.valueError
      "zero-size array to reduction operation minimum which has no identity")
  else
    let box := boxOf a r
    if ((allIdx a.shape).filter (inBox box)).all (selectedOrSkip a r skip) then
      pure (some box)
    else
      pure none

/-- `_relative_ranges_to_domain`: shift each relative range by the absolute
start of the corresponding domain range. -/
def relativeRangesToDomain (rrs : List UnitRange) (domain : Domain) : Domain :=
  List.zipWith (fun (nr : NamedRange) rr => (nr.1, rr.shiftB nr.2.start))
    domain rrs

/-- `NdArrayConnectivityField.inverse_image` for a `UnitRange` query: assert
finiteness, run `_hypercube`, fail with the non-contiguous `ValueError` when
no hypercube exists, else translate the relative ranges to absolute ones.
(The memoization cache is semantically transparent and omitted; the
`NamedRange` query form only adds a codomain check.) -/
def inverse_image (c : NdArrayConnectivityField) (image_range : UnitRange) :
    Except Err Domain :=
  if ¬ image_range.isFinite then throw .assertionError
  else do
    match ← hypercube c.arr image_range c.skip with
    | none => throw (.valueError "Restriction generates non-contiguous dimensions.")
    | some rrs => pure (relativeRangesToDomain rrs c.dom)

/-- The sliced index buffer of `NdArrayConnectivityField.restrict` for an
absolute domain index (the restricted connectivity's `ndarray`). -/
def connRestrictArr (c : NdArrayConnectivityField) (index : Domain) :
    NDArray Int :=
  ndIndex c.arr (getSlicesFromDomainSlice c.dom index)

/-- The `ConnectivityField` interface seen by `NdArrayField.remap`: kind,
codomain, skip value, domain, index buffer, inverse image and restriction.
Array-backed connectivities instantiate it via `toConn`; structure-preserving
connectivities such as the relabeling `CartesianConnectivity` (not in the
given sources, modelled from the spec as "pure reindexing/compaction")
instantiate it with a kind without `MODIFY_STRUCTURE`. -/
structure Conn where
  kind : ConnectivityKind
  codomain : Dimension
  skip : Option Int
  dom : Domain
  arr : NDArray Int
  invImage : UnitRange → Except Err Domain
  restrictArr : Domain → NDArray Int

/-- The `Conn` interface of an `NdArrayConnectivityField`. -/
def toConn (c : NdArrayConnectivityField) : Conn :=
  { kind := ndKind c
    codomain := c.codomain
    skip := c.skip
    dom := c.dom
    arr := c.arr
    invImage := inverse_image c
    restrictArr := connRestrictArr c }

/-- The general (`MODIFY_STRUCTURE`) branch of `remap`: restrict the
connectivity to the new domain, rebase its indices by the current range's
start, and gather along the target axis. -/
def remapGatherBuffer (f : NdArrayField) (c : Conn) (dimIdx : Nat)
    (currentRange : UnitRange) (newRanges : Domain) :
    Except Err (NDArray Int) := do
  let restrictedDomain : Domain := newRanges
  let rarr := if restrictedDomain ≠ c.dom then c.restrictArr restrictedDomain
    else c.arr
  let s ← (match currentRange.start with
    | .fin v => pure v
    | _ => throw Err.assertionError)
  pure (ndTake f.arr (ndMap (fun x => x - s) rarr) dimIdx)

/-- `NdArrayField.remap`: skip-value contract, codomain lookup, new domain by
inverse image, then either the compact shortcut (array reused unchanged) or
the gather branch, and a final `from_array` with the field's dtype. -/
def remap (f : NdArrayField) (c : Conn) : Except Err NdArrayField := do
  if ¬ (c.skip = none ∨ c.skip = some (-1)) then throw Err.assertionError
  match dimIndex f.dom c.codomain with
  | none => throw (.valueError "Incompatible index field.")
  | some dimIdx => do
    let currentRange := (f.dom.getD dimIdx default).2
    let newRanges ← c.invImage currentRange
    let newDomain := replaceAt f.dom dimIdx newRanges
    let newBuffer ←
      if c.kind.modifyStructure = false then pure f.arr
      else remapGatherBuffer f c dimIdx currentRange newRanges
    from_array newBuffer newDomain f.dty

/-- Follows the spec claim wording: a remap that always goes through
restriction, index rebasing and gather, with no compact shortcut.  Used to
state that array-backed connectivities never take the shortcut. -/
def remapAlwaysGather (f : NdArrayField) (c : Conn) :
    Except Err NdArrayField := do
  if ¬ (c.skip = none ∨ c.skip = some (-1)) then throw Err.assertionError
  match dimIndex f.dom c.codomain with
  | none => throw (.valueError "Incompatible index field.")
  | some dimIdx => do
    let currentRange := (f.dom.getD dimIdx default).2
    let newRanges ← c.invImage currentRange
    let newDomain := replaceAt f.dom dimIdx newRanges
    let newBuffer ← remapGatherBuffer f c dimIdx currentRange newRanges
    from_array newBuffer newDomain f.dty

/-! ## Segment concatenation (`concat_where`) -/

/-- Loop body of `_compute_mask_ranges`: scan the remaining values, closing a
run whenever the value changes; `cur` is the current run's value, `ind` its
start, `i` the position of the next element. -/
def maskRangesAux (cur : Bool) (ind i : Nat) : List Bool →
    List (Bool × UnitRange)
  | [] => [(cur, ⟨.fin (ind : Int), .fin (i : Int)⟩)]
  | b :: bs =>
    if b ≠ cur then
      (cur, ⟨.fin (ind : Int), .fin (i : Int)⟩) :: maskRangesAux b i (i + 1) bs
    else maskRangesAux cur ind (i + 1) bs

/-- `_compute_mask_ranges`: maximal runs of equal boolean values with their
relative ranges (the source reads `mask[0]` first, so the empty case is
handled by the caller). -/
def computeMaskRanges (l : List Bool) : List (Bool × UnitRange) :=
  match l with
  | [] => []
  | h :: t => maskRangesAux h 0 1 t

/-- One step of `_trim_empty_domains` with explicit fuel (the source recurses
dropping the first or last entry; the fuel, the list length, bounds that
recursion so the definition stays structural). -/
def trimAux : Nat → List (Bool × Domain) → List (Bool × Domain)
  | 0, l => l
  | fuelN + 1, l =>
    match l with
    | [] => []
    | x :: xs =>
      if domainIsEmpty x.2 then trimAux fuelN xs
      else
        match (x :: xs).getLast? with
        | some y =>
          if domainIsEmpty y.2 then trimAux fuelN ((x :: xs).dropLast)
          else x :: xs
        | none => x :: xs

/-- `_trim_empty_domains`: remove empty domains from both ends of the list. -/
def trimEmptyDomains (l : List (Bool × Domain)) : List (Bool × Domain) :=
  trimAux l.length l

/-- `_intersect_fields` for two field arguments: promote the dimensions,
broadcast both fields, restrict the domains to their intersection outside the
ignored dimensions, and slice each field to its restricted domain. -/
def intersect_fields2 (t f : NdArrayField) (ignore : List Dimension) :
    Except Err (NdArrayField × NdArrayField) := do
  let promoted := promoteDims (dims t.dom) (dims f.dom)
  let tb := broadcastF t promoted
  let fb := broadcastF f promoted
  let inters := restrictToIntersection [tb.dom, fb.dom] ignore
  let d0 := inters.getD 0 []
  let d1 := inters.getD 1 []
  let t' ← from_array (ndIndex tb.arr (getSlicesFromDomainSlice tb.dom d0))
    d0 t.dty
  let f' ← from_array (ndIndex fb.arr (getSlicesFromDomainSlice fb.dom d1))
    d1 f.dty
  pure (t', f')

/-- Loop of `_stack_domains`: each successive domain's start along `dim` must
equal the previous stop; returns the final stop. -/
def stackLoop (dim : Dimension) : List Domain → Bound → Option Bound
  | [], s => some s
  | d :: ds, s => do
    let r ← lookupRange d dim
    if r.start = s then stackLoop dim ds r.stop else none

/-- `_stack_domains`: requires the domains to tile a contiguous range along
`dim`; returns the first domain with that dimension's range replaced by the
full stacked range. -/
def stackDomains (ds : List Domain) (dim : Dimension) : Option Domain :=
  match ds with
  | [] => some []
  | d0 :: _ => do
    let r0 ← lookupRange d0 dim
    let stop ← stackLoop dim ds r0.start
    some (replaceDim d0 dim (dim, ⟨r0.start, stop⟩))

/-- `_concat`: orderly concatenation along `dim`; overlapping fields are a
`ValueError`, a gap in the stacked domains raises `NonContiguousDomain`. -/
def concatF (fs : List NdArrayField) (dim : Dimension) :
    Except Err NdArrayField := do
  if fs.length > 1 ∧ ¬ domainIsEmpty (domainIntersection (fs.map (fun g => g.dom)))
  then throw (.valueError "Fields to concatenate must not overlap.")
  match stackDomains (fs.map (fun g => g.dom)) dim with
  | none => throw (.nonContiguousDomain "Cannot concatenate fields.")
  | some newDomain =>
    from_array
      (ndConcatenate
        (fs.map (fun g => ndBroadcastTo g.arr (domainShape g.dom)))
        ((dimIndex newDomain dim).getD 0))
      newDomain
      ((fs.headD default).dty)

/-- The first dimension of the mask field's domain. -/
def maskDimOf (m : NdArrayField) : Dimension := (m.dom.headD default).1

/-- The per-run absolute mask sub-domains of `concat_where` (runs of the mask
paired with their one-dimensional domains). -/
def cwMaskDomains (m : NdArrayField) : List (Bool × Domain) :=
  (computeMaskRanges (m.arr.data.map (fun v => v != 0))).map
    (fun p => (p.1, relativeRangesToDomain [p.2] m.dom))

/-- The run domains intersected with the selected branch field's domain. -/
def cwIntersected (m tb fb : NdArrayField) : List (Bool × Domain) :=
  (cwMaskDomains m).map (fun p =>
    (p.1, domainIntersection [(if p.1 then tb.dom else fb.dom), p.2]))

/-- The intersected run domains after trimming empty ends. -/
def cwTrimmed (m tb fb : NdArrayField) : List (Bool × Domain) :=
  trimEmptyDomains (cwIntersected m tb fb)

/-- `_concat_where`: 1-d mask check, orthogonal intersection of the branch
fields, run computation, trimming, the non-contiguous check, slicing of the
branch fields and final concatenation (empty run list gives an empty float
field over a zero-length range, from `xp.empty`). -/
def concat_where (m t f : NdArrayField) : Except Err NdArrayField := do
  if m.dom.length ≠ 1 then
    throw (.notImplementedError
      "concat_where: Can only concatenate fields with a 1-dimensional mask.")
  let tf ← intersect_fields2 t f [maskDimOf m]
  if m.arr.data.isEmpty then throw Err.indexError
  if (cwTrimmed m tf.1 tf.2).any (fun p => domainIsEmpty p.2) then
    throw (.nonContiguousDomain "concat_where: cannot concatenate the domains.")
  let transformed ← (cwTrimmed m tf.1 tf.2).mapM (fun p =>
    if p.1 then restrictF tf.1 p.2 else restrictF tf.2 p.2)
  if transformed.isEmpty then
    pure ⟨[(maskDimOf m, ⟨.fin 0, .fin 0⟩)], .float64K, ⟨[0], []⟩⟩
  else concatF transformed (maskDimOf m)

/-! ## Neighbor reductions -/

/-- The conventional skip value of neighbor tables.  Modelled from the spec:
"sentinel meaning no neighbor, conventionally `-1`"
(`common._DEFAULT_SKIP_VALUE` is not in the given sources). -/
def DEFAULT_SKIP_VALUE : Int := -1

/-- `_make_reduction`: validate the local dimension, broadcast the offset
provider's neighbor table against the field, mask the entries whose table
value equals the default skip value with the operation's initial value, and
reduce along the local axis.  The ambient offset provider is passed
explicitly as the table and its origin axis. -/
def make_reduction (op : Int → Int → Int) (initOp : NdArrayField → Int)
    (field : NdArrayField) (axis : Dimension) (table : NDArray Int)
    (originAxis : Dimension) : Except Err NdArrayField := do
  if axis.kind ≠ DimensionKind.localDim then
    throw (.valueError "Can only reduce local dimensions.")
  if axis ∉ dims field.dom then
    throw (.valueError "Field can not be reduced as it does not have the dimension.")
  if ((dims field.dom).filter (fun d => decide (d.kind = DimensionKind.localDim))).length > 1
  then throw (.notImplementedError
    "Reducing a field with more than one local dimension is not supported.")
  let reduceDimIndex := (dims field.dom).findIdx (fun d => decide (d = axis))
  let newDomain : Domain := field.dom.filter (fun nr => decide (nr.1 ≠ axis))
  let bslice := (dims field.dom).map (fun d =>
    if d = axis ∨ d = originAxis then AxisSel.slc none none else AxisSel.newaxis)
  let tb := ndIndex table bslice
  let masked := ndZip
    (fun tv fv => if tv ≠ DEFAULT_SKIP_VALUE then fv else initOp field)
    tb field.arr
  from_array (ndReduce op masked reduceDimIndex) newDomain field.dty

/-- `neighbor_sum`: masked entries become `0`. -/
def neighbor_sum (field : NdArrayField) (axis : Dimension)
    (table : NDArray Int) (originAxis : Dimension) : Except Err NdArrayField :=
  make_reduction (· + ·) (fun _ => 0) field axis table originAxis

/-- `max_over`: masked entries become `xp.min(field.ndarray)`, the minimum of
the field's own array. -/
def max_over (field : NdArrayField) (axis : Dimension) (table : NDArray Int)
    (originAxis : Dimension) : Except Err NdArrayField :=
  make_reduction max (fun x => listIMin x.arr.data) field axis table originAxis

/-- `min_over`: masked entries become `xp.max(field.ndarray)`, the maximum of
the field's own array. -/
def min_over (field : NdArrayField) (axis : Dimension) (table : NDArray Int)
    (originAxis : Dimension) : Except Err NdArrayField :=
  make_reduction min (fun x => listIMax x.arr.data) field axis table originAxis

/-- The value of the int64 dtype's minimum, for the spec-side reading of the
reduction claim. -/
def int64Min : Int := -(2 ^ 63)

/-- The value of the int64 dtype's maximum. -/
def int64Max : Int := 2 ^ 63 - 1

/-- Follows the spec claim wording for `max_over`: masked entries become the
dtype's minimum (int64 here) rather than the array's minimum. -/
def max_over_dtype_min (field : NdArrayField) (axis : Dimension)
    (table : NDArray Int) (originAxis : Dimension) : Except Err NdArrayField :=
  make_reduction max (fun _ => int64Min) field axis table originAxis

/-! ## Dialect front-end (`func_to_past.py`) error paths -/

/-- A source location attached to every AST node (`self.get_location(node)`). -/
structure SourceLocation where
  line : Nat
  column : Nat
deriving DecidableEq

/-- Modelled from the spec: the result of `type_translation.from_type_hint`
(module not in the given sources) — either a proper data type or some other
type specification that is not a `ts.DataType`. -/
inductive TypeSpec where
  | dataType (name : String)
  | otherType (name : String)
deriving DecidableEq

/-- The DSL-level errors raised by the parser: each carries the source
location of the offending construct.  `dslError` carries the raised message;
the parameter-annotation errors carry the parameter name from which their
message is rendered (the `errors` module is not in the given sources, its
rendering is modelled from the spec as "a source location and a
human-readable message"). -/
inductive PErr where
  | missingParamAnn (loc : SourceLocation) (paramName : String)
  | invalidParamAnn (loc : SourceLocation) (paramName : String)
  | dslError (loc : SourceLocation) (msg : String)
deriving DecidableEq

/-- The source location carried by a DSL error. -/
def PErr.location : PErr → SourceLocation
  | .missingParamAnn l _ => l
  | .invalidParamAnn l _ => l
  | .dslError l _ => l

/-- The human-readable message carried by a DSL error. -/
def PErr.message : PErr → String
  | .missingParamAnn _ n => "Parameter " ++ n ++ " is missing a type annotation."
  | .invalidParamAnn _ n => "Invalid type annotation on parameter " ++ n ++ "."
  | .dslError _ m => m

/-- A function parameter node (`ast.arg`). -/
structure PyArg where
  arg : String
  loc : SourceLocation
deriving DecidableEq

/-- A produced parameter symbol (`past.DataSymbol`). -/
structure DataSymbol where
  id : String
  loc : SourceLocation
  type : TypeSpec
deriving DecidableEq

/-- `ProgramParser.visit_arg`: a missing annotation raises
`MissingParameterAnnotationError`, a non-data-type annotation raises
`InvalidParameterAnnotationError`, otherwise a `DataSymbol` is produced. -/
def visit_arg (annMap : List (String × TypeSpec)) (node : PyArg) :
    Except PErr DataSymbol :=
  match (annMap.find? (fun p => p.1 == node.arg)).map Prod.snd with
  | none => throw (.missingParamAnn node.loc node.arg)
  | some t =>
    match t with
    | .dataType n => pure ⟨node.arg, node.loc, .dataType n⟩
    | .otherType _ => throw (.invalidParamAnn node.loc node.arg)

/-- Unary operator kinds of the Python AST relevant here. -/
inductive UOp where
  | usub
  | uadd
  | notOp
deriving DecidableEq

/- The Python expression AST fragment handled by `ProgramParser`; argument
lists are a mutual inductive so that the visitor is structurally recursive. -/
mutual
/-- Python expression nodes handled by the parser. -/
inductive PyExpr where
  | nameE (id : String) (loc : SourceLocation)
  | constantE (value : Int) (loc : SourceLocation)
  | callE (func : PyExpr) (args : PyArgs) (loc : SourceLocation)
  | unaryE (op : UOp) (operand : PyExpr) (loc : SourceLocation)
  | binopE (left right : PyExpr) (loc : SourceLocation)
  | subscriptE (value idx : PyExpr) (loc : SourceLocation)
/-- Call argument lists of `PyExpr`. -/
inductive PyArgs where
  | nilA
  | consA (head : PyExpr) (tail : PyArgs)
end

/- The produced program AST (`past` nodes). -/
mutual
/-- Produced program AST nodes. -/
inductive PastExpr where
  | nameP (id : String) (loc : SourceLocation)
  | constantP (value : Int) (loc : SourceLocation)
  | callP (func : PastExpr) (args : PastList) (loc : SourceLocation)
  | binopP (left right : PastExpr) (loc : SourceLocation)
  | subscriptP (value idx : PastExpr) (loc : SourceLocation)
/-- Lists of produced nodes. -/
inductive PastList where
  | nilP
  | consP (head : PastExpr) (tail : PastList)
end

/-- Whether a produced node is a plain name (`isinstance(new_func, past.Name)`). -/
def isNameP : PastExpr → Bool
  | .nameP _ _ => true
  | _ => false

/-- Whether a Python node is a literal constant (`isinstance(node.operand,
ast.Constant)`). -/
def isConstantE : PyExpr → Bool
  | .constantE _ _ => true
  | _ => false

/- The expression visitor of `ProgramParser`. -/
mutual
/-- The expression visitor: `visit_Name`, `visit_Constant`, `visit_BinOp`,
`visit_Subscript`, `visit_UnaryOp` (only a negated literal is accepted) and
`visit_Call` (the callee must visit to a plain name before the arguments are
visited). -/
def visit : PyExpr → Except PErr PastExpr
  | .nameE i l => pure (.nameP i l)
  | .constantE v l => pure (.constantP v l)
  | .binopE a b l => do
    let la ← visit a
    let rb ← visit b
    pure (.binopP la rb l)
  | .subscriptE v s l => do
    let pv ← visit v
    let ps ← visit s
    pure (.subscriptP pv ps l)
  | .unaryE op operand l =>
    match op, operand with
    | .usub, .constantE v _ => pure (.constantP (-v) l)
    | _, _ => throw (.dslError l "Unary operators are only applicable to literals.")
  | .callE fn args l => do
    let nf ← visit fn
    if isNameP nf = false then
      throw (.dslError l "Functions must be referenced by their name in function calls.")
    else do
      let nargs ← visitArgs args
      pure (.callP nf nargs l)
/-- Visitor over call argument lists. -/
def visitArgs : PyArgs → Except PErr PastList
  | .nilA => pure .nilP
  | .consA h t => do
    let ph ← visit h
    let pt ← visitArgs t
    pure (.consP ph pt)
end

/-! ## Concrete fixtures used by the claim theorems, witnesses and
counterexamples -/

/-- The horizontal dimension `I` of the spec's scenarios. -/
def dimI : Dimension := ⟨"I", .horizontal⟩

/-- A second horizontal dimension, used as a remap source dimension. -/
def dimA : Dimension := ⟨"A", .horizontal⟩

/-- A third horizontal dimension, used as a second table axis. -/
def dimB : Dimension := ⟨"B", .horizontal⟩

/-- The edge-like origin dimension of the reduction fixtures. -/
def dimE : Dimension := ⟨"E", .horizontal⟩

/-- The local neighbor-list dimension of the reduction fixtures. -/
def dimL : Dimension := ⟨"L", .localDim⟩

/-- Field `A`: dimension `I`, range `[0,5)`, values `[0,1,2,3,4]`. -/
def fldA : NdArrayField := ⟨[(dimI, ⟨.fin 0, .fin 5⟩)], .int64K, ⟨[5], [0, 1, 2, 3, 4]⟩⟩

/-- Field `B`: dimension `I`, range `[2,7)`, values `[10,20,30,40,50]`. -/
def fldB : NdArrayField := ⟨[(dimI, ⟨.fin 2, .fin 7⟩)], .int64K, ⟨[5], [10, 20, 30, 40, 50]⟩⟩

/-- The boolean mask `[True,True,False,False,True]` over `I:[0,5)`. -/
def mask5 : NdArrayField := ⟨[(dimI, ⟨.fin 0, .fin 5⟩)], .boolK, ⟨[5], [1, 1, 0, 0, 1]⟩⟩

/-- The all-ones true-branch field over `I:[0,5)`. -/
def tOnes : NdArrayField := ⟨[(dimI, ⟨.fin 0, .fin 5⟩)], .int64K, ⟨[5], [1, 1, 1, 1, 1]⟩⟩

/-- The all-zeros false-branch field over `I:[0,5)`. -/
def fZeros : NdArrayField := ⟨[(dimI, ⟨.fin 0, .fin 5⟩)], .int64K, ⟨[5], [0, 0, 0, 0, 0]⟩⟩

/-- A connectivity whose single entry `5` lies outside the query range
`[0,1)`: the selection mask has no `True` entry. -/
def conn0 : NdArrayConnectivityField :=
  ⟨[(dimI, ⟨.fin 0, .fin 1⟩)], ⟨[1], [5]⟩, dimI, some (-1)⟩

/-- The docstring example of `_hypercube`: a `3×3` table whose top-left `2×2`
block holds the in-range values, padded with skip values. -/
def connD : NdArrayConnectivityField :=
  ⟨[(dimA, ⟨.fin 0, .fin 3⟩), (dimB, ⟨.fin 0, .fin 3⟩)],
   ⟨[3, 3], [0, 1, -1, 3, 4, -1, -1, -1, -1]⟩, dimI, some (-1)⟩

/-- A `2×2` field over `(E, L)` used by the reduction claims. -/
def fldR : NdArrayField :=
  ⟨[(dimE, ⟨.fin 0, .fin 2⟩), (dimL, ⟨.fin 0, .fin 2⟩)], .int64K,
   ⟨[2, 2], [10, 20, 30, 40]⟩⟩

/-- A neighbor table whose second row is entirely skip values. -/
def tbl : NDArray Int := ⟨[2, 2], [0, -1, -1, -1]⟩

/-- A degenerate but constructible field: empty range `I:[0,0)` paired with a
broadcast-placeholder axis of length `1`. -/
def fDeg : NdArrayField := ⟨[(dimI, ⟨.fin 0, .fin 0⟩)], .int64K, ⟨[1], [7]⟩⟩

/-- A well-formed field used as the `restrict` witness. -/
def fQ : NdArrayField :=
  ⟨[(dimA, ⟨.fin 1, .fin 3⟩), (dimB, ⟨.fin 0, .fin 2⟩)], .int64K,
   ⟨[2, 2], [4, 5, 6, 7]⟩⟩

/-- A structure-preserving relabeling connectivity (kind without
`MODIFY_STRUCTURE`): its inverse image shifts the queried range onto `A`. -/
def compactConn : Conn :=
  { kind := ⟨false, false, false⟩
    codomain := dimI
    skip := none
    dom := []
    arr := ⟨[], []⟩
    invImage := fun r => .ok [(dimA, r.shiftB (.fin 1))]
    restrictArr := fun _ => ⟨[], []⟩ }

/-- The field remapped through `compactConn`. -/
def fldJ : NdArrayField := ⟨[(dimI, ⟨.fin 0, .fin 3⟩)], .int64K, ⟨[3], [1, 2, 3]⟩⟩

/-- A boolean field over `I:[0,3)`. -/
def fB1 : NdArrayField := ⟨[(dimI, ⟨.fin 0, .fin 3⟩)], .boolK, ⟨[3], [1, 0, 1]⟩⟩

/-- A second boolean field over `I:[0,3)`. -/
def fB2 : NdArrayField := ⟨[(dimI, ⟨.fin 0, .fin 3⟩)], .boolK, ⟨[3], [1, 1, 0]⟩⟩

/-- An integer field used to exercise the non-boolean refusal. -/
def fI1 : NdArrayField := ⟨[(dimI, ⟨.fin 0, .fin 3⟩)], .int64K, ⟨[3], [1, 2, 3]⟩⟩

/-- Gap fixtures for `concat_where`: mask `[T,F,T]` over `I:[0,3)`. -/
def maskG : NdArrayField := ⟨[(dimI, ⟨.fin 0, .fin 3⟩)], .boolK, ⟨[3], [1, 0, 1]⟩⟩

/-- True-branch field covering all of `I:[0,3)`. -/
def tG : NdArrayField := ⟨[(dimI, ⟨.fin 0, .fin 3⟩)], .int64K, ⟨[3], [1, 1, 1]⟩⟩

/-- False-branch field covering only `I:[5,6)`: the false run `[1,2)` is
covered by neither field. -/
def fG : NdArrayField := ⟨[(dimI, ⟨.fin 5, .fin 6⟩)], .int64K, ⟨[1], [9]⟩⟩

/-- Well-formedness of one domain/array axis pair: the axis is the
broadcastable placeholder `1` or matches the finite range's length. -/
def wfAxis (nr : NamedRange) (s : Nat) : Prop :=
  s = 1 ∨ (nr.2.isFinite = true ∧ nr.2.len = s)

/-- Well-formedness of a field: rank and data size match the shape, the
dimensions are distinct, and every axis satisfies `wfAxis` (the invariants
`from_array` asserts plus what NumPy guarantees about its arrays). -/
def wfField (f : NdArrayField) : Prop :=
  f.arr.shape.length = f.dom.length ∧
  f.arr.data.length = f.arr.shape.prod ∧
  (dims f.dom).Nodup ∧
  List.Forall₂ wfAxis f.dom f.arr.shape

/-- A slice entry acting as the identity on an axis of length `s`. -/
def idSel (s : Nat) (sel : AxisSel) : Prop :=
  match sel with
  | .slc x y => pyStart s x = 0 ∧ pyStop s y = s
  | .newaxis => False

/-- The value the reduction claims predict for one output entry: reduce the
row after replacing the entries whose table value is the skip value by the
initial value. -/
def maskedRowReduce (op : Int → Int → Int) (init : Int) (t v : List Int)
    (m r : Nat) : Int :=
  reduceList op ((List.range m).map (fun j =>
    if t.getD (r * m + j) 0 = DEFAULT_SKIP_VALUE then init
    else v.getD (r * m + j) 0))

/-! ## Theorems -/

theorem catMap_append (f : α → List β) (l₁ l₂ : List α) :
    catMap f (l₁ ++ l₂) = catMap f l₁ ++ catMap f l₂ := by
  induction l₁ with
  | nil => rfl
  | cons a as ih => simp [catMap, ih]

theorem mem_catMap {f : α → List β} {l : List α} {b : β} :
    b ∈ catMap f l ↔ ∃ a ∈ l, b ∈ f a := by
  induction l with
  | nil => simp [catMap]
  | cons a as ih => simp [catMap, ih]

theorem catMap_length_const {f : α → List β} {l : List α} {L : Nat}
    (h : ∀ a ∈ l, (f a).length = L) :
    (catMap f l).length = l.length * L := by
  induction l with
  | nil => simp [catMap]
  | cons a as ih =>
    simp only [catMap, List.length_append, List.length_cons]
    rw [h a (by simp), ih (fun x hx => h x (by simp [hx]))]
    ring

theorem catMap_getElem? {f : α → List β} {l : List α} {L : Nat}
    (h : ∀ a ∈ l, (f a).length = L) (q r : Nat) (hr : r < L) :
    (catMap f l)[q * L + r]? =
      (match l[q]? with
       | some a => (f a)[r]?
       | none => none) := by
  induction l generalizing q with
  | nil => simp [catMap]
  | cons a as ih =>
    cases q with
    | zero =>
      have hlen : (f a).length = L := h a (by simp)
      simp only [catMap, Nat.zero_mul, Nat.zero_add]
      rw [List.getElem?_append_left (by omega)]
      simp
    | succ q' =>
      have hlen : (f a).length = L := h a (by simp)
      have harith : (q' + 1) * L + r = (f a).length + (q' * L + r) := by
        rw [hlen]; ring
      simp only [catMap, harith]
      rw [List.getElem?_append_right (by omega)]
      have : (f a).length + (q' * L + r) - (f a).length = q' * L + r := by omega
      rw [this, ih (fun x hx => h x (by simp [hx]))]
      simp

/-- `allIdx` maps under row-major flattening exactly onto `List.range` of the
shape's product. -/
theorem allIdx_map_flatIdx (sh : List Nat) :
    (allIdx sh).map (flatIdx sh) = List.range sh.prod := by
  induction sh with
  | nil => rfl
  | cons s ss ih =>
    have key : ∀ i : Nat,
        ((allIdx ss).map (fun ix => i :: ix)).map (flatIdx (s :: ss)) =
          (List.range ss.prod).map (fun k => i * ss.prod + k) := by
      intro i
      rw [List.map_map]
      have : (flatIdx (s :: ss)) ∘ (fun ix => i :: ix) =
          (fun k => i * ss.prod + k) ∘ (flatIdx ss) := by
        funext ix; simp [flatIdx, Function.comp]
      rw [this, ← List.map_map, ih]
    have main : ∀ n : Nat,
        (catMap (fun i => (allIdx ss).map (fun ix => i :: ix))
          (List.range n)).map (flatIdx (s :: ss)) = List.range (n * ss.prod) := by
      intro n
      induction n with
      | zero => simp [catMap, List.range_zero]
      | succ n ihn =>
        rw [List.range_succ, catMap_append, List.map_append, ihn]
        simp only [catMap, List.append_nil]
        rw [key n, Nat.succ_mul, List.range_add]
    simpa [allIdx, List.prod_cons] using main s

/-- The number of multi-indices of a shape is the product of the shape. -/
theorem allIdx_length (sh : List Nat) : (allIdx sh).length = sh.prod := by
  have := congrArg List.length (allIdx_map_flatIdx sh)
  simpa using this

/-- Characterization of membership in `allIdx`: componentwise bounded indices
of matching length. -/
theorem mem_allIdx {sh : List Nat} {ix : List Nat} :
    ix ∈ allIdx sh ↔ List.Forall₂ (fun i s => i < s) ix sh := by
  induction sh generalizing ix with
  | nil =>
    simp only [allIdx, List.mem_singleton]
    constructor
    · rintro rfl; exact List.Forall₂.nil
    · intro h; cases h; rfl
  | cons s ss ih =>
    simp only [allIdx, mem_catMap, List.mem_range, List.mem_map]
    constructor
    · rintro ⟨i, hi, ix', hix', rfl⟩
      exact List.Forall₂.cons hi (ih.mp hix')
    · intro h
      cases h with
      | cons hi hrest => exact ⟨_, hi, _, ih.mpr hrest, rfl⟩

/-- The flat index of a valid multi-index is within the array size. -/
theorem flatIdx_lt {sh ix : List Nat}
    (h : List.Forall₂ (fun i s => i < s) ix sh) : flatIdx sh ix < sh.prod := by
  induction h with
  | nil => simp [flatIdx]
  | @cons i s ix' ss' hi _ ih =>
    simp only [flatIdx, List.prod_cons]
    have h1 : flatIdx ss' ix' < ss'.prod := ih
    have h2 : i + 1 ≤ s := hi
    calc i * ss'.prod + flatIdx ss' ix' < i * ss'.prod + ss'.prod := by omega
      _ = (i + 1) * ss'.prod := by ring
      _ ≤ s * ss'.prod := Nat.mul_le_mul_right _ h2

/-- Looking up `allIdx` at the flat position of a member recovers that
member. -/
theorem allIdx_getElem?_flatIdx {sh : List Nat} {ix : List Nat}
    (h : ix ∈ allIdx sh) : (allIdx sh)[flatIdx sh ix]? = some ix := by
  induction sh generalizing ix with
  | nil =>
    simp only [allIdx, List.mem_singleton] at h
    subst h; rfl
  | cons s ss ih =>
    simp only [allIdx, mem_catMap, List.mem_range, List.mem_map] at h
    obtain ⟨i, hi, ix', hix', rfl⟩ := h
    have hlen : ∀ a ∈ List.range s,
        ((allIdx ss).map (fun ix => a :: ix)).length = ss.prod := by
      intro a _; simp [allIdx_length]
    have hflt : flatIdx ss ix' < ss.prod := flatIdx_lt (mem_allIdx.mp hix')
    simp only [allIdx, flatIdx]
    rw [catMap_getElem? hlen i (flatIdx ss ix') hflt]
    rw [List.getElem?_range hi]
    simp only [List.getElem?_map, ih hix']
    rfl

/-- Reading a list back at every position in order reconstructs the list. -/
theorem range_map_getD (l : List α) (d : α) :
    (List.range l.length).map (fun k => l.getD k d) = l := by
  induction l with
  | nil => simp
  | cons a as ihl =>
    rw [List.length_cons, List.range_succ_eq_map, List.map_cons, List.map_map]
    have hc : ((fun k => (a :: as).getD k d) ∘ (fun i => i + 1)) =
        (fun k => as.getD k d) := by
      funext k; simp [List.getD_cons_succ]
    rw [hc, ihl]
    simp [List.getD_cons_zero]

/-- Reading a list of the right length back through all flat indices
reconstructs the list. -/
theorem allIdx_map_getD {l : List α} {sh : List Nat} (d : α)
    (h : l.length = sh.prod) :
    (allIdx sh).map (fun ix => l.getD (flatIdx sh ix) d) = l := by
  have h1 : (allIdx sh).map (fun ix => l.getD (flatIdx sh ix) d) =
      ((allIdx sh).map (flatIdx sh)).map (fun k => l.getD k d) := by
    rw [List.map_map]; rfl
  rw [h1, allIdx_map_flatIdx, ← h, range_map_getD]

/-- Mapping a function over all multi-indices and reading back at a valid
index gives the function's value there. -/
theorem map_allIdx_getD {sh : List Nat} {ix : List Nat} (f : List Nat → α)
    (d : α) (h : ix ∈ allIdx sh) :
    ((allIdx sh).map f).getD (flatIdx sh ix) d = f ix := by
  have hlt : flatIdx sh ix < sh.prod := flatIdx_lt (mem_allIdx.mp h)
  rw [List.getD_eq_getElem?_getD]
  rw [List.getElem?_map, allIdx_getElem?_flatIdx h]
  rfl

theorem foldl_min_le (t : List Nat) (a : Nat) :
    t.foldl min a ≤ a ∧ ∀ x ∈ t, t.foldl min a ≤ x := by
  induction t generalizing a with
  | nil => simp
  | cons h t ih =>
    simp only [List.foldl_cons]
    obtain ⟨h1, h2⟩ := ih (min a h)
    refine ⟨le_trans h1 (min_le_left a h), ?_⟩
    intro x hx
    rcases List.mem_cons.mp hx with rfl | hmem
    · exact le_trans h1 (min_le_right a x)
    · exact h2 x hmem

theorem listMin_le {l : List Nat} {x : Nat} (hx : x ∈ l) : listMin l ≤ x := by
  cases l with
  | nil => cases hx
  | cons h t =>
    simp only [listMin]
    rcases List.mem_cons.mp hx with rfl | hmem
    · exact (foldl_min_le t x).1
    · exact (foldl_min_le t h).2 x hmem

theorem foldl_min_mem (t : List Nat) (a : Nat) :
    t.foldl min a = a ∨ t.foldl min a ∈ t := by
  induction t generalizing a with
  | nil => left; rfl
  | cons h t ih =>
    simp only [List.foldl_cons]
    rcases ih (min a h) with h1 | h1
    · rcases Nat.le_total a h with hle | hle
      · left; rw [h1]; exact min_eq_left hle
      · right; rw [h1, min_eq_right hle]
        exact List.mem_cons_self h t
    · right; exact List.mem_cons_of_mem h h1

theorem listMin_mem {l : List Nat} (h : l ≠ []) : listMin l ∈ l := by
  cases l with
  | nil => exact absurd rfl h
  | cons a t =>
    simp only [listMin]
    rcases foldl_min_mem t a with h1 | h1
    · rw [h1]; exact List.mem_cons_self a t
    · exact List.mem_cons_of_mem a h1

theorem le_foldl_max (t : List Nat) (a : Nat) :
    a ≤ t.foldl max a ∧ ∀ x ∈ t, x ≤ t.foldl max a := by
  induction t generalizing a with
  | nil => simp
  | cons h t ih =>
    simp only [List.foldl_cons]
    obtain ⟨h1, h2⟩ := ih (max a h)
    refine ⟨le_trans (le_max_left a h) h1, ?_⟩
    intro x hx
    rcases List.mem_cons.mp hx with rfl | hmem
    · exact le_trans (le_max_right a x) h1
    · exact h2 x hmem

theorem le_listMax {l : List Nat} {x : Nat} (hx : x ∈ l) : x ≤ listMax l := by
  cases l with
  | nil => cases hx
  | cons h t =>
    simp only [listMax]
    rcases List.mem_cons.mp hx with rfl | hmem
    · exact (le_foldl_max t x).1
    · exact (le_foldl_max t h).2 x hmem

theorem foldl_max_mem (t : List Nat) (a : Nat) :
    t.foldl max a = a ∨ t.foldl max a ∈ t := by
  induction t generalizing a with
  | nil => left; rfl
  | cons h t ih =>
    simp only [List.foldl_cons]
    rcases ih (max a h) with h1 | h1
    · rcases Nat.le_total a h with hle | hle
      · right; rw [h1, max_eq_right hle]
        exact List.mem_cons_self h t
      · left; rw [h1]; exact max_eq_left hle
    · right; exact List.mem_cons_of_mem h h1

theorem listMax_mem {l : List Nat} (h : l ≠ []) : listMax l ∈ l := by
  cases l with
  | nil => exact absurd rfl h
  | cons a t =>
    simp only [listMax]
    rcases foldl_max_mem t a with h1 | h1
    · rw [h1]; exact List.mem_cons_self a t
    · exact List.mem_cons_of_mem a h1

/-! ## Claim theorems -/

/-- C2: for Field A over `I:[0,5)` with values `[0,1,2,3,4]` and Field B over
`I:[2,7)` with values `[10,20,30,40,50]`, the elementwise sum `A+B` is a
Field with domain `I:[2,5)` and values `[12,23,34]`. -/
theorem claim_C2_add_scenario :
    fieldAdd (.fieldO fldA) (.fieldO fldB) =
      .ok ⟨[(dimI, ⟨.fin 2, .fin 5⟩)], .int64K, ⟨[3], [12, 23, 34]⟩⟩ := by
  rfl

/-- C5: for the boolean mask `[True,True,False,False,True]` over `I:[0,5)`,
an all-ones true field and an all-zeros false field over `I:[0,5)`,
`concat_where` returns the field with values `[1,1,0,0,1]` over `I:[0,5)`. -/
theorem claim_C5_concat_where_scenario :
    concat_where mask5 tOnes fZeros =
      .ok ⟨[(dimI, ⟨.fin 0, .fin 5⟩)], .int64K, ⟨[5], [1, 1, 0, 0, 1]⟩⟩ := by
  rfl

/-- C1 counterexample: for the connectivity with single entry `5` and target
range `[0,1)` (no entry selected), `inverse_image` raises NumPy's zero-size
reduction `ValueError` — it neither returns a hypercube nor fails with the
non-contiguous error, contradicting the claim's dichotomy. -/
theorem claim_C1_counterexample :
    inverse_image conn0 ⟨.fin 0, .fin 1⟩ =
      .error (.valueError
        "zero-size array to reduction operation minimum which has no identity") ∧
    (inverse_image conn0 ⟨.fin 0, .fin 1⟩).isOk = false ∧
    Err.valueError
        "zero-size array to reduction operation minimum which has no identity" ≠
      Err.valueError "Restriction generates non-contiguous dimensions." := by
  refine ⟨rfl, rfl, by decide⟩

/-- C3 counterexample: on the `2×2` field `[[10,20],[30,40]]` with a fully
masked second table row, `max_over` yields `[10,10]` — masked entries are
replaced by the array's minimum `10`, not by the int64 dtype minimum, which
would yield `[10, -2^63]` as the spec-side variant shows. -/
theorem claim_C3_counterexample :
    max_over fldR dimL tbl dimE =
      .ok ⟨[(dimE, ⟨.fin 0, .fin 2⟩)], .int64K, ⟨[2], [10, 10]⟩⟩ ∧
    max_over_dtype_min fldR dimL tbl dimE =
      .ok ⟨[(dimE, ⟨.fin 0, .fin 2⟩)], .int64K, ⟨[2], [10, int64Min]⟩⟩ ∧
    (⟨[2], [10, 10]⟩ : NDArray Int) ≠ ⟨[2], [10, int64Min]⟩ := by
  refine ⟨rfl, rfl, by decide⟩

/-- C6 counterexample: the constructible field over the empty range `I:[0,0)`
with a placeholder array axis of length `1` restricts to a field with an
empty array, so `f.restrict(f.domain)` does not return `f`. -/
theorem claim_C6_counterexample :
    from_array fDeg.arr fDeg.dom fDeg.dty = .ok fDeg ∧
    restrictF fDeg fDeg.dom =
      .ok ⟨[(dimI, ⟨.fin 0, .fin 0⟩)], .int64K, ⟨[0], []⟩⟩ ∧
    (⟨[0], []⟩ : NDArray Int) ≠ fDeg.arr := by
  refine ⟨rfl, rfl, by decide⟩

/-- Inversion of `from_array`: a successful construction returns exactly the
given domain, dtype and data. -/
theorem from_array_ok {data : NDArray Int} {domain : Domain} {dty : DTypeKind}
    {g : NdArrayField} (h : from_array data domain dty = .ok g) :
    g = ⟨domain, dty, data⟩ := by
  unfold from_array at h
  split at h
  · exact absurd h (by simp [throw, throwThe, MonadExceptOf.throw])
  · split at h
    · exact absurd h (by simp [throw, throwThe, MonadExceptOf.throw])
    · cases h; rfl

/-- C10: the `kind` of every array-backed connectivity field includes
`MODIFY_STRUCTURE`, and consequently `remap` through such a connectivity
computes exactly what the always-gather remap computes — the compact
shortcut is never taken. -/
theorem claim_C10_theorem (c : NdArrayConnectivityField) (f : NdArrayField) :
    (toConn c).kind.modifyStructure = true ∧
    remap f (toConn c) = remapAlwaysGather f (toConn c) := by
  constructor
  · rfl
  · unfold remap remapAlwaysGather
    simp [toConn, ndKind]

/-- C9: the dialect front-end raises located DSL errors — a missing
parameter annotation, a non-data-type parameter annotation, a unary negation
of a non-literal operand, and a call whose function does not visit to a plain
name each produce an error carrying the offending node's source location and
a nonempty human-readable message. -/
theorem claim_C9_theorem :
    (∀ (annMap : List (String × TypeSpec)) (node : PyArg),
      annMap.find? (fun p => p.1 == node.arg) = none →
      visit_arg annMap node = .error (.missingParamAnn node.loc node.arg) ∧
      (PErr.missingParamAnn node.loc node.arg).location = node.loc ∧
      (PErr.missingParamAnn node.loc node.arg).message ≠ "") ∧
    (∀ (annMap : List (String × TypeSpec)) (node : PyArg)
      (s : String × TypeSpec) (tn : String),
      annMap.find? (fun p => p.1 == node.arg) = some s →
      s.2 = TypeSpec.otherType tn →
      visit_arg annMap node = .error (.invalidParamAnn node.loc node.arg) ∧
      (PErr.invalidParamAnn node.loc node.arg).location = node.loc ∧
      (PErr.invalidParamAnn node.loc node.arg).message ≠ "") ∧
    (∀ (operand : PyExpr) (l : SourceLocation),
      isConstantE operand = false →
      visit (.unaryE .usub operand l) =
        .error (.dslError l "Unary operators are only applicable to literals.") ∧
      (PErr.dslError l "Unary operators are only applicable to literals.").location = l ∧
      (PErr.dslError l "Unary operators are only applicable to literals.").message ≠ "") ∧
    (∀ (fn : PyExpr) (args : PyArgs) (l : SourceLocation) (p : PastExpr),
      visit fn = .ok p →
      isNameP p = false →
      visit (.callE fn args l) =
        .error (.dslError l
          "Functions must be referenced by their name in function calls.") ∧
      (PErr.dslError l
        "Functions must be referenced by their name in function calls.").location = l ∧
      (PErr.dslError l
        "Functions must be referenced by their name in function calls.").message ≠ "") := by
  refine ⟨?_, ?_, ?_, ?_⟩
  · intro annMap node h
    refine ⟨?_, rfl, ?_⟩
    · simp [visit_arg, h]; rfl
    · intro hc
      have hl := congrArg String.length hc
      rw [PErr.message, String.length_append, String.length_append] at hl
      have h1 : ("Parameter " : String).length = 10 := rfl
      have h2 : (" is missing a type annotation." : String).length = 30 := rfl
      have h3 : ("" : String).length = 0 := rfl
      omega
  · intro annMap node s tn hfind hother
    refine ⟨?_, rfl, ?_⟩
    · simp [visit_arg, hfind, hother]
      rfl
    · intro hc
      have hl := congrArg String.length hc
      rw [PErr.message, String.length_append, String.length_append] at hl
      have h1 : ("Invalid type annotation on parameter " : String).length = 37 := rfl
      have h2 : ("." : String).length = 1 := rfl
      have h3 : ("" : String).length = 0 := rfl
      omega
  · intro operand l hop
    refine ⟨?_, rfl, fun hc => absurd hc
      (show ¬("Unary operators are only applicable to literals." = "") by decide)⟩
    cases operand
    case constantE v l' => simp [isConstantE] at hop
    all_goals rfl
  · intro fn args l p hvisit hname
    refine ⟨?_, rfl, fun hc => absurd hc
      (show ¬("Functions must be referenced by their name in function calls." = "")
        by decide)⟩
    have hstep : visit (.callE fn args l) = visit fn >>= (fun nf =>
      if isNameP nf = false then
        throw (.dslError l
          "Functions must be referenced by their name in function calls.")
      else do
        let nargs ← visitArgs args
        pure (.callP nf nargs l)) := rfl
    rw [hstep, hvisit]
    show (if isNameP p = false then _ else _) = _
    rw [if_pos hname]
    rfl

/-- C9 witness: each of the four error paths at a concrete program
fragment. -/
theorem claim_C9_witness :
    (([] : List (String × TypeSpec)).find?
        (fun p => p.1 == (⟨"x", ⟨1, 2⟩⟩ : PyArg).arg) = none ∧
      visit_arg [] ⟨"x", ⟨1, 2⟩⟩ = .error (.missingParamAnn ⟨1, 2⟩ "x")) ∧
    ([("y", TypeSpec.otherType "tuple")].find?
        (fun p => p.1 == (⟨"y", ⟨3, 4⟩⟩ : PyArg).arg) =
          some ("y", TypeSpec.otherType "tuple") ∧
      visit_arg [("y", .otherType "tuple")] ⟨"y", ⟨3, 4⟩⟩ =
        .error (.invalidParamAnn ⟨3, 4⟩ "y")) ∧
    (isConstantE (.nameE "z" ⟨5, 6⟩) = false ∧
      visit (.unaryE .usub (.nameE "z" ⟨5, 6⟩) ⟨5, 5⟩) =
        .error (.dslError ⟨5, 5⟩ "Unary operators are only applicable to literals.")) ∧
    (visit (.subscriptE (.nameE "m" ⟨7, 1⟩) (.constantE 0 ⟨7, 2⟩) ⟨7, 3⟩) =
        .ok (.subscriptP (.nameP "m" ⟨7, 1⟩) (.constantP 0 ⟨7, 2⟩) ⟨7, 3⟩) ∧
      visit (.callE (.subscriptE (.nameE "m" ⟨7, 1⟩) (.constantE 0 ⟨7, 2⟩) ⟨7, 3⟩)
          .nilA ⟨7, 0⟩) =
        .error (.dslError ⟨7, 0⟩
          "Functions must be referenced by their name in function calls.")) := by
  refine ⟨⟨rfl, ?_⟩, ⟨rfl, ?_⟩, ⟨rfl, ?_⟩, ⟨rfl, ?_⟩⟩
  · exact (claim_C9_theorem.1 [] ⟨"x", ⟨1, 2⟩⟩ rfl).1
  · exact (claim_C9_theorem.2.1 [("y", .otherType "tuple")] ⟨"y", ⟨3, 4⟩⟩
      ("y", .otherType "tuple") "tuple" rfl rfl).1
  · exact (claim_C9_theorem.2.2.1 (.nameE "z" ⟨5, 6⟩) ⟨5, 5⟩ rfl).1
  · exact (claim_C9_theorem.2.2.2
      (.subscriptE (.nameE "m" ⟨7, 1⟩) (.constantE 0 ⟨7, 2⟩) ⟨7, 3⟩) .nilA ⟨7, 0⟩
      (.subscriptP (.nameP "m" ⟨7, 1⟩) (.constantP 0 ⟨7, 2⟩) ⟨7, 3⟩) rfl rfl).1

/-- C7: for every field and every connectivity whose kind does not include
`MODIFY_STRUCTURE`, a successful `remap` reuses the backing array unchanged
and only replaces the domain with the one computed from the connectivity's
inverse image. -/
theorem claim_C7_theorem (f : NdArrayField) (c : Conn) (g : NdArrayField)
    (i : Nat) (rs : Domain)
    (hk : c.kind.modifyStructure = false)
    (hskip : c.skip = none ∨ c.skip = some (-1))
    (hdim : dimIndex f.dom c.codomain = some i)
    (hinv : c.invImage (f.dom.getD i default).2 = .ok rs)
    (hfa : from_array f.arr (replaceAt f.dom i rs) f.dty = .ok g) :
    remap f c = .ok g ∧ g.arr = f.arr ∧ g.dom = replaceAt f.dom i rs := by
  have hg : g = ⟨replaceAt f.dom i rs, f.dty, f.arr⟩ := from_array_ok hfa
  refine ⟨?_, by rw [hg], by rw [hg]⟩
  unfold remap
  simp only [hk, hdim]
  rw [if_neg (not_not_intro hskip), hinv]
  exact hfa

/-- C7 witness: remapping `fldJ` through the compact relabeling connectivity
keeps the array `[1,2,3]` and shifts the domain to `A:[1,4)`. -/
theorem claim_C7_witness :
    (compactConn.kind.modifyStructure = false ∧
      (compactConn.skip = none ∨ compactConn.skip = some (-1)) ∧
      dimIndex fldJ.dom compactConn.codomain = some 0 ∧
      compactConn.invImage (fldJ.dom.getD 0 default).2 =
        .ok [(dimA, ⟨.fin 1, .fin 4⟩)] ∧
      from_array fldJ.arr (replaceAt fldJ.dom 0 [(dimA, ⟨.fin 1, .fin 4⟩)]) fldJ.dty =
        .ok ⟨[(dimA, ⟨.fin 1, .fin 4⟩)], .int64K, ⟨[3], [1, 2, 3]⟩⟩) ∧
    remap fldJ compactConn =
      .ok ⟨[(dimA, ⟨.fin 1, .fin 4⟩)], .int64K, ⟨[3], [1, 2, 3]⟩⟩ ∧
    (⟨[3], [1, 2, 3]⟩ : NDArray Int) = fldJ.arr ∧
    ([(dimA, ⟨.fin 1, .fin 4⟩)] : Domain) =
      replaceAt fldJ.dom 0 [(dimA, ⟨.fin 1, .fin 4⟩)] := by
  have h := claim_C7_theorem fldJ compactConn
    ⟨[(dimA, ⟨.fin 1, .fin 4⟩)], .int64K, ⟨[3], [1, 2, 3]⟩⟩ 0
    [(dimA, ⟨.fin 1, .fin 4⟩)] rfl (Or.inl rfl) rfl rfl rfl
  exact ⟨⟨rfl, Or.inl rfl, rfl, rfl, rfl⟩, h.1, h.2.1, h.2.2⟩

/-- C4: for a 1-dimensional boolean mask and branch fields, if after trimming
the leading and trailing empty-intersection runs some remaining run's
intersected domain is empty — the mask's regions leave a gap neither field
covers — then `concat_where` fails with the non-contiguous domain error. -/
theorem claim_C4_theorem (m t f tb fb : NdArrayField)
    (h1 : m.dom.length = 1)
    (hint : intersect_fields2 t f [maskDimOf m] = .ok (tb, fb))
    (hmask : m.arr.data.isEmpty = false)
    (hgap : (cwTrimmed m tb fb).any (fun p => domainIsEmpty p.2) = true) :
    concat_where m t f =
      .error (.nonContiguousDomain "concat_where: cannot concatenate the domains.") := by
  simp [concat_where, h1, hint, hmask, hgap, Bind.bind, Except.bind]
  rfl

/-- C4 witness: mask `[T,F,T]` over `I:[0,3)`, a true field covering
`I:[0,3)` and a false field covering only `I:[5,6)`: the false run `[1,2)` is
covered by neither field and `concat_where` raises the non-contiguous
error. -/
theorem claim_C4_witness :
    (maskG.dom.length = 1 ∧
      intersect_fields2 tG fG [maskDimOf maskG] = .ok (tG, fG) ∧
      maskG.arr.data.isEmpty = false ∧
      (cwTrimmed maskG tG fG).any (fun p => domainIsEmpty p.2) = true) ∧
    concat_where maskG tG fG =
      .error (.nonContiguousDomain "concat_where: cannot concatenate the domains.") :=
  ⟨⟨rfl, rfl, rfl, rfl⟩, claim_C4_theorem maskG tG fG tG fG rfl rfl rfl rfl⟩

/-- Intersection of a range with itself is the range. -/
theorem urInter_self (r : UnitRange) : UnitRange.inter r r = r := by
  cases r with
  | mk s t =>
    simp only [UnitRange.inter]
    congr 1
    · cases s <;> simp [Bound.bmax]
    · cases t <;> simp [Bound.bmin]

/-- In a domain with distinct dimensions, looking up a member's dimension
returns that member's range. -/
theorem lookupRange_self {d : Domain} (hnodup : (dims d).Nodup) :
    ∀ nr ∈ d, lookupRange d nr.1 = some nr.2 := by
  induction d with
  | nil => intro nr h; cases h
  | cons p t ih =>
    intro nr hmem
    rcases List.mem_cons.mp hmem with rfl | hmem'
    · simp [lookupRange]
    · have hnd : (dims t).Nodup := (List.nodup_cons.mp hnodup).2
      have hne : p.1 ≠ nr.1 := by
        intro hc
        have : p.1 ∈ dims t := by
          rw [hc]
          exact List.mem_map.mpr ⟨nr, hmem', rfl⟩
        exact (List.nodup_cons.mp hnodup).1 this
      simp only [lookupRange, List.find?]
      rw [show (decide (p.1 = nr.1)) = false from decide_eq_false hne]
      exact ih hnd nr hmem'

/-- Intersecting the empty domain with a duplicate-free domain gives that
domain back (the base case of `domain_intersection`). -/
theorem domainAnd_nil {d : Domain} (hnodup : (dims d).Nodup) :
    domainAnd [] d = d := by
  unfold domainAnd promoteDims
  simp only [dims, List.map_nil, List.nil_append]
  have hfilter : (d.map Prod.fst).filter (fun b => decide (b ∉ ([] : List Dimension)))
      = d.map Prod.fst := by
    apply List.filter_eq_self.mpr
    intro a _
    simp
  rw [hfilter, List.map_map]
  have : ∀ nr ∈ d, ((fun dim =>
      (dim, UnitRange.inter ((lookupRange [] dim).getD urInfinite)
        ((lookupRange d dim).getD urInfinite))) ∘ Prod.fst) nr = nr := by
    intro nr hmem
    simp only [Function.comp]
    rw [lookupRange_self hnodup nr hmem]
    have hl : lookupRange [] nr.1 = none := rfl
    rw [hl]
    show (nr.1, UnitRange.inter urInfinite nr.2) = nr
    have hinf : UnitRange.inter urInfinite nr.2 = nr.2 := by
      cases nr.2 with
      | mk s t =>
        simp only [UnitRange.inter, urInfinite]
        congr 1
        · cases s <;> rfl
        · cases t <;> rfl
    rw [hinf]
  rw [List.map_congr_left this]
  simp

/-- Intersecting a duplicate-free domain with itself gives it back. -/
theorem domainAnd_self {d : Domain} (hnodup : (dims d).Nodup) :
    domainAnd d d = d := by
  unfold domainAnd promoteDims
  have hfilter : (dims d).filter (fun b => decide (b ∉ dims d)) = [] := by
    apply List.filter_eq_nil_iff.mpr
    intro a ha
    simp [ha]
  rw [hfilter, List.append_nil]
  simp only [dims, List.map_map]
  have : ∀ nr ∈ d, ((fun dim =>
      (dim, UnitRange.inter ((lookupRange d dim).getD urInfinite)
        ((lookupRange d dim).getD urInfinite))) ∘ Prod.fst) nr = nr := by
    intro nr hmem
    simp only [Function.comp]
    rw [lookupRange_self hnodup nr hmem]
    show (nr.1, UnitRange.inter nr.2 nr.2) = nr
    rw [urInter_self]
  rw [List.map_congr_left this]
  simp

/-- The axis check of `from_array` succeeds on well-formed axes. -/
theorem zipWith_check_of_forall₂ {dom : Domain} {sh : List Nat}
    (h : List.Forall₂ wfAxis dom sh) :
    (List.zipWith
      (fun (nr : NamedRange) s => s == 1 || (nr.2.isFinite && nr.2.len == s))
      dom sh).all id = true := by
  induction h with
  | nil => rfl
  | @cons nr s dom' sh' hax _ ih =>
    simp only [List.zipWith_cons_cons, List.all_cons, Bool.and_eq_true, id]
    refine ⟨?_, ih⟩
    rcases hax with rfl | ⟨hfin, hlen⟩
    · simp
    · simp [hfin, hlen]

/-- `from_array` succeeds on a rank-matching array with well-formed axes. -/
theorem from_array_isOk (data : NDArray Int) (domain : Domain)
    (dty : DTypeKind)
    (hrank : data.shape.length = domain.length)
    (hax : List.Forall₂ wfAxis domain data.shape) :
    from_array data domain dty = .ok ⟨domain, dty, data⟩ := by
  unfold from_array
  rw [if_neg (by omega)]
  rw [if_neg (by simp [zipWith_check_of_forall₂ hax])]
  rfl

/-- Broadcasting two well-formed axis lengths stays well-formed. -/
theorem wfAxis_max {nr : NamedRange} {a b : Nat} (ha : wfAxis nr a)
    (hb : wfAxis nr b) : wfAxis nr (max a b) := by
  rcases ha with rfl | ⟨hfin, hlen⟩
  · rcases hb with rfl | ⟨hfin, hlen⟩
    · left; rfl
    · rcases Nat.le_total nr.2.len 1 with hle | hle
      · left; omega
      · right; exact ⟨hfin, by omega⟩
  · rcases hb with rfl | ⟨hfin', hlen'⟩
    · rcases Nat.le_total nr.2.len 1 with hle | hle
      · left; omega
      · right; exact ⟨hfin, by omega⟩
    · right; exact ⟨hfin, by omega⟩

/-- Pointwise broadcast of two well-formed shapes is well-formed. -/
theorem forall₂_wfAxis_zipWith_max {dom : Domain} {s t : List Nat}
    (hs : List.Forall₂ wfAxis dom s) (ht : List.Forall₂ wfAxis dom t) :
    List.Forall₂ wfAxis dom (List.zipWith max s t) := by
  induction dom generalizing s t with
  | nil =>
    cases hs; cases ht
    simp
  | cons nr dom' ih =>
    cases hs with
    | cons hax hs' =>
      cases ht with
      | cons hax' ht' =>
        simp only [List.zipWith_cons_cons]
        exact List.Forall₂.cons (wfAxis_max hax hax') (ih hs' ht')

/-- `_make_builtin` binary operations succeed on two well-formed fields over
the same duplicate-free domain and return a field over that domain. -/
theorem make_builtin_binary_ok (op : Int → Int → Int) (f g : NdArrayField)
    (hdom : g.dom = f.dom)
    (hnodup : (dims f.dom).Nodup)
    (hrank_f : f.arr.shape.length = f.dom.length)
    (hrank_g : g.arr.shape.length = f.dom.length)
    (hax_f : List.Forall₂ wfAxis f.dom f.arr.shape)
    (hax_g : List.Forall₂ wfAxis f.dom g.arr.shape) :
    make_builtin_binary op false (.fieldO f) (.fieldO g) =
      .ok ⟨f.dom, f.dty, ndZip op f.arr g.arr⟩ := by
  have hinter : domainIntersection (operandDomains [.fieldO f, .fieldO g]) = f.dom := by
    show domainAnd (domainAnd [] f.dom) g.dom = f.dom
    rw [domainAnd_nil hnodup, hdom, domainAnd_self hnodup]
  unfold make_builtin_binary
  show from_array
      (applyBin op
        (transformOperand (domainIntersection (operandDomains [.fieldO f, .fieldO g])) (.fieldO f))
        (transformOperand (domainIntersection (operandDomains [.fieldO f, .fieldO g])) (.fieldO g)))
      (domainIntersection (operandDomains [.fieldO f, .fieldO g])) f.dty = _
  rw [hinter]
  have htf : transformOperand f.dom (.fieldO f) = .inl f.arr := by
    simp [transformOperand]
  have htg : transformOperand f.dom (.fieldO g) = .inl g.arr := by
    simp [transformOperand, hdom]
  rw [htf, htg]
  show from_array (ndZip op f.arr g.arr) f.dom f.dty = _
  have hshape : (ndZip op f.arr g.arr).shape =
      List.zipWith max f.arr.shape g.arr.shape := rfl
  apply from_array_isOk
  · rw [hshape, List.length_zipWith]
    omega
  · rw [hshape]
    exact forall₂_wfAxis_zipWith_max hax_f hax_g

/-- `_make_builtin` unary operations succeed on a well-formed field over a
duplicate-free domain. -/
theorem make_builtin_unary_ok (op : Int → Int) (f : NdArrayField)
    (hnodup : (dims f.dom).Nodup)
    (hrank : f.arr.shape.length = f.dom.length)
    (hax : List.Forall₂ wfAxis f.dom f.arr.shape) :
    make_builtin_unary op f = .ok ⟨f.dom, f.dty, ndMap op f.arr⟩ := by
  have hinter : domainIntersection [f.dom] = f.dom := by
    show domainAnd [] f.dom = f.dom
    exact domainAnd_nil hnodup
  unfold make_builtin_unary
  show from_array
      (match transformOperand (domainIntersection [f.dom]) (.fieldO f) with
       | .inl arr => ndMap op arr
       | .inr v => ⟨[], [op v]⟩)
      (domainIntersection [f.dom]) f.dty = _
  rw [hinter]
  have htf : transformOperand f.dom (.fieldO f) = .inl f.arr := by
    simp [transformOperand]
  rw [htf]
  show from_array (ndMap op f.arr) f.dom f.dty = _
  apply from_array_isOk
  · exact hrank
  · exact hax

/-- C8: boolean-only operators (`and`, `or`, `xor`, `invert`) fail with the
unsupported-operation error on every field whose dtype is not boolean, and
succeed, returning a new field, on boolean-dtype fields. -/
theorem claim_C8_theorem (f g : NdArrayField)
    (hdom : g.dom = f.dom)
    (hnodup : (dims f.dom).Nodup)
    (hrank_f : f.arr.shape.length = f.dom.length)
    (hrank_g : g.arr.shape.length = f.dom.length)
    (hax_f : List.Forall₂ wfAxis f.dom f.arr.shape)
    (hax_g : List.Forall₂ wfAxis f.dom g.arr.shape) :
    (f.dty ≠ .boolK →
      fieldAnd f (.fieldO g) =
        .error (.notImplementedError "__and__ not implemented for non-bool fields.") ∧
      fieldOr f (.fieldO g) =
        .error (.notImplementedError "__or__ not implemented for non-bool fields.") ∧
      fieldXor f (.fieldO g) =
        .error (.notImplementedError "__xor__ not implemented for non-bool fields.") ∧
      fieldInvert f =
        .error (.notImplementedError "__invert__ not implemented for non-bool fields.")) ∧
    (f.dty = .boolK →
      fieldAnd f (.fieldO g) = .ok ⟨f.dom, f.dty, ndZip logicalAndOp f.arr g.arr⟩ ∧
      fieldOr f (.fieldO g) = .ok ⟨f.dom, f.dty, ndZip logicalOrOp f.arr g.arr⟩ ∧
      fieldXor f (.fieldO g) = .ok ⟨f.dom, f.dty, ndZip logicalXorOp f.arr g.arr⟩ ∧
      fieldInvert f = .ok ⟨f.dom, f.dty, ndMap invertOp f.arr⟩) := by
  constructor
  · intro hne
    refine ⟨?_, ?_, ?_, ?_⟩
    · rw [fieldAnd, if_neg hne]; rfl
    · rw [fieldOr, if_neg hne]; rfl
    · rw [fieldXor, if_neg hne]; rfl
    · rw [fieldInvert, if_neg hne]; rfl
  · intro heq
    refine ⟨?_, ?_, ?_, ?_⟩
    · rw [fieldAnd, if_pos heq]
      exact make_builtin_binary_ok logicalAndOp f g hdom hnodup hrank_f hrank_g hax_f hax_g
    · rw [fieldOr, if_pos heq]
      exact make_builtin_binary_ok logicalOrOp f g hdom hnodup hrank_f hrank_g hax_f hax_g
    · rw [fieldXor, if_pos heq]
      exact make_builtin_binary_ok logicalXorOp f g hdom hnodup hrank_f hrank_g hax_f hax_g
    · rw [fieldInvert, if_pos heq]
      exact make_builtin_unary_ok invertOp f hnodup hrank_f hax_f

/-- C8 witness: the boolean fields `fB1`, `fB2` over `I:[0,3)` support all
four operators, and the integer field `fI1` is refused by each. -/
theorem claim_C8_witness :
    (fB2.dom = fB1.dom ∧ fB1.dty = .boolK ∧ fI1.dty ≠ .boolK) ∧
    (fieldAnd fB1 (.fieldO fB2) = .ok ⟨fB1.dom, .boolK, ndZip logicalAndOp fB1.arr fB2.arr⟩ ∧
      fieldInvert fB1 = .ok ⟨fB1.dom, .boolK, ndMap invertOp fB1.arr⟩) ∧
    (fieldAnd fI1 (.fieldO fB2) =
        .error (.notImplementedError "__and__ not implemented for non-bool fields.") ∧
      fieldInvert fI1 =
        .error (.notImplementedError "__invert__ not implemented for non-bool fields.")) := by
  have hb := claim_C8_theorem fB1 fB2 rfl (by decide) rfl rfl
    (by constructor
        · right; exact ⟨rfl, rfl⟩
        · exact List.Forall₂.nil)
    (by constructor
        · right; exact ⟨rfl, rfl⟩
        · exact List.Forall₂.nil)
  have hi := claim_C8_theorem fI1 fB2
    (show fB2.dom = fI1.dom from rfl) (by decide) rfl rfl
    (by constructor
        · right; exact ⟨rfl, rfl⟩
        · exact List.Forall₂.nil)
    (by constructor
        · right; exact ⟨rfl, rfl⟩
        · exact List.Forall₂.nil)
  refine ⟨⟨rfl, rfl, by decide⟩, ?_, ?_⟩
  · have h := hb.2 rfl
    exact ⟨h.1, h.2.2.2⟩
  · have h := hi.1 (by decide)
    exact ⟨h.1, h.2.2.2⟩

/-- Identity slices keep the shape. -/
theorem selShape_id {sh : List Nat} {sels : List AxisSel}
    (h : List.Forall₂ idSel sh sels) : selShape sels sh = sh := by
  induction h with
  | nil => rfl
  | @cons s sel sh' sels' hsel _ ih =>
    cases sel with
    | newaxis => exact absurd hsel (by simp [idSel])
    | slc x y =>
      obtain ⟨h0, hs⟩ := hsel
      simp only [selShape, h0, hs, Nat.sub_zero]
      rw [ih]

/-- Identity slices map every valid output index to itself. -/
theorem selMap_id {sh : List Nat} {sels : List AxisSel}
    (h : List.Forall₂ idSel sh sels) :
    ∀ ix, List.Forall₂ (fun i s => i < s) ix sh → selMap sels sh ix = ix := by
  induction h with
  | nil =>
    intro ix hix
    cases hix
    rfl
  | @cons s sel sh' sels' hsel _ ih =>
    intro ix hix
    cases sel with
    | newaxis => exact absurd hsel (by simp [idSel])
    | slc x y =>
      obtain ⟨h0, _⟩ := hsel
      cases hix with
      | cons hi hrest =>
        simp only [selMap, h0, Nat.zero_add]
        rw [ih _ hrest]

/-- Basic indexing with identity slices returns the array unchanged. -/
theorem ndIndex_id {α : Type} [Inhabited α] (a : NDArray α)
    (sels : List AxisSel)
    (hlen : a.data.length = a.shape.prod)
    (h : List.Forall₂ idSel a.shape sels) : ndIndex a sels = a := by
  have hdata : (allIdx a.shape).map (fun ix => aget a (selMap sels a.shape ix)) =
      a.data := by
    have hcongr : ∀ ix ∈ allIdx a.shape,
        aget a (selMap sels a.shape ix) = a.data.getD (flatIdx a.shape ix) default := by
      intro ix hix
      rw [selMap_id h ix (mem_allIdx.mp hix)]
      rfl
    rw [List.map_congr_left hcongr]
    exact allIdx_map_getD default hlen
  show (⟨selShape sels a.shape,
    (allIdx (selShape sels a.shape)).map (fun ix => aget a (selMap sels a.shape ix))⟩ :
      NDArray α) = a
  rw [selShape_id h, hdata]

/-- Restricting a duplicate-free domain by itself is the identity. -/
theorem subDomainAbs_self {d : Domain} (hnodup : (dims d).Nodup) :
    subDomainAbs d d = d := by
  unfold subDomainAbs
  have hcongr : ∀ nr ∈ d,
      (match lookupRange d nr.1 with
       | some r => (nr.1, r)
       | none => nr) = nr := by
    intro nr hmem
    rw [lookupRange_self hnodup nr hmem]
  rw [List.map_congr_left hcongr]
  simp

/-- Slicing a duplicate-free domain by itself gives each range's own
relative slice. -/
theorem getSlices_self {d : Domain} (hnodup : (dims d).Nodup) :
    getSlicesFromDomainSlice d d = d.map (fun nr => computeSlice nr.2 nr.2) := by
  unfold getSlicesFromDomainSlice
  apply List.map_congr_left
  intro nr hmem
  rw [lookupRange_self hnodup nr hmem]

/-- A finite range is a pair of finite bounds. -/
theorem isFinite_exists {r : UnitRange} (h : r.isFinite = true) :
    ∃ a b, r = ⟨.fin a, .fin b⟩ := by
  cases r with
  | mk u t =>
    cases u <;> cases t <;>
      first
        | exact ⟨_, _, rfl⟩
        | exact Bool.noConfusion h

/-- Per-axis identity slices from the well-formedness hypotheses: slicing a
finite range by itself against a matching or placeholder axis is the
identity slice. -/
theorem idSel_of_axes {dom : Domain} {sh : List Nat}
    (hax : List.Forall₂ wfAxis dom sh)
    (hne : List.Forall₂ (fun (nr : NamedRange) s => s = 1 → 1 ≤ nr.2.len) dom sh)
    (hfin : ∀ nr ∈ dom, nr.2.isFinite = true) :
    List.Forall₂ idSel sh (dom.map (fun nr => computeSlice nr.2 nr.2)) := by
  induction dom generalizing sh with
  | nil =>
    cases hax
    exact List.Forall₂.nil
  | cons nr rest ih =>
    cases sh with
    | nil => cases hax
    | cons s sh' =>
      cases hax with
      | cons haxh haxt =>
      cases hne with
      | cons hneh hnet =>
        have hfh : nr.2.isFinite = true := hfin nr (List.mem_cons_self nr rest)
        obtain ⟨a, b, hab⟩ := isFinite_exists hfh
        simp only [List.map_cons]
        constructor
        · rw [hab]
          simp only [idSel, computeSlice]
          constructor
          · simp [pyStart, pyClamp]
          · rcases haxh with rfl | ⟨_, hlen'⟩
            · have h1 : 1 ≤ nr.2.len := hneh rfl
              rw [hab] at h1
              simp only [UnitRange.len] at h1
              simp only [pyStop, pyClamp]
              rw [if_neg (by omega)]
              omega
            · rw [hab] at hlen'
              simp only [UnitRange.len] at hlen'
              simp only [pyStop, pyClamp]
              by_cases hneg : b - a < 0
              · rw [if_pos hneg]
                omega
              · rw [if_neg hneg]
                omega
        · exact ih haxt hnet (fun nr' hm => hfin nr' (List.mem_cons_of_mem nr hm))

/-- C6 (amended): for every well-formed field with a finite domain in which
no axis pairs an empty range with the broadcast-placeholder length `1`,
restricting the field to its own domain returns the field unchanged — the
same domain and the same array. -/
theorem claim_C6_theorem (f : NdArrayField)
    (hwf : wfField f)
    (hfin : domainFinite f.dom = true)
    (hne : List.Forall₂ (fun (nr : NamedRange) s => s = 1 → 1 ≤ nr.2.len)
      f.dom f.arr.shape) :
    restrictF f f.dom = .ok f := by
  obtain ⟨hrank, hlen, hnodup, hax⟩ := hwf
  unfold restrictF
  rw [subDomainAbs_self hnodup, getSlices_self hnodup]
  have hfin' : ∀ nr ∈ f.dom, nr.2.isFinite = true := by
    intro nr hmem
    have := (List.all_eq_true.mp hfin) nr hmem
    simpa using this
  have hids : List.Forall₂ idSel f.arr.shape
      (f.dom.map (fun nr => computeSlice nr.2 nr.2)) :=
    idSel_of_axes hax hne hfin'
  rw [ndIndex_id f.arr _ hlen hids]
  rw [from_array_isOk f.arr f.dom f.dty hrank hax]

/-- C6 witness: the well-formed `2×2` field `fQ` restricts to itself. -/
theorem claim_C6_witness :
    (wfField fQ ∧ domainFinite fQ.dom = true ∧
      List.Forall₂ (fun (nr : NamedRange) s => s = 1 → 1 ≤ nr.2.len)
        fQ.dom fQ.arr.shape) ∧
    restrictF fQ fQ.dom = .ok fQ := by
  have h1 : wfField fQ := by
    refine ⟨rfl, rfl, by decide, ?_⟩
    constructor
    · right; exact ⟨rfl, rfl⟩
    constructor
    · right; exact ⟨rfl, rfl⟩
    · exact List.Forall₂.nil
  have h2 : domainFinite fQ.dom = true := rfl
  have h3 : List.Forall₂ (fun (nr : NamedRange) s => s = 1 → 1 ≤ nr.2.len)
      fQ.dom fQ.arr.shape := by
    constructor
    · intro h; cases h
    constructor
    · intro h; cases h
    · exact List.Forall₂.nil
  exact ⟨⟨h1, h2, h3⟩, claim_C6_theorem fQ h1 h2 h3⟩

/-- Broadcasting a shape against itself is the identity. -/
theorem zipWith_max_self (l : List Nat) : List.zipWith max l l = l := by
  induction l with
  | nil => rfl
  | cons h t ih => simp [ih]

theorem zipWith_bcast_id {ix sh : List Nat}
    (h : List.Forall₂ (fun i s => i < s) ix sh) :
    List.zipWith (fun i s => if s = 1 then 0 else i) ix sh = ix := by
  induction h with
  | nil => rfl
  | cons hi _ ih =>
    simp only [List.zipWith_cons_cons, ih]
    congr 1
    split
    · omega
    · rfl

theorem bget_eq_aget {α : Type} [Inhabited α] (a : NDArray α) {ix : List Nat}
    (h : List.Forall₂ (fun i s => i < s) ix a.shape) : bget a ix = aget a ix := by
  unfold bget
  rw [zipWith_bcast_id h]

theorem ndZip_entry (op : Int → Int → Int) (a b : NDArray Int) (sh : List Nat)
    (ha : a.shape = sh) (hb : b.shape = sh) {ix : List Nat}
    (hix : ix ∈ allIdx sh) :
    (ndZip op a b).data.getD (flatIdx sh ix) 0 = op (aget a ix) (aget b ix) := by
  have hbsh : broadcastShape a.shape b.shape = sh := by
    rw [ha, hb, broadcastShape, zipWith_max_self]
  show ((allIdx (broadcastShape a.shape b.shape)).map
    (fun ix => op (bget a ix) (bget b ix))).getD (flatIdx sh ix) 0 = _
  rw [hbsh]
  rw [map_allIdx_getD _ _ hix]
  rw [bget_eq_aget a (by rw [ha]; exact mem_allIdx.mp hix),
    bget_eq_aget b (by rw [hb]; exact mem_allIdx.mp hix)]

/-- Row-major flat index of a two-dimensional position. -/
theorem flatIdx_two (n m r j : Nat) : flatIdx [n, m] [r, j] = r * m + j := by
  simp [flatIdx]

theorem mem_allIdx_two {n m r j : Nat} (hr : r < n) (hj : j < m) :
    [r, j] ∈ allIdx [n, m] :=
  mem_allIdx.mpr (List.Forall₂.cons hr (List.Forall₂.cons hj List.Forall₂.nil))

theorem ndReduce_axis1_shape (op : Int → Int → Int) (c : NDArray Int)
    {n m : Nat} (hsh : c.shape = [n, m]) : (ndReduce op c 1).shape = [n] := by
  simp [ndReduce, hsh]

theorem ndReduce_axis1_entry (op : Int → Int → Int) (c : NDArray Int)
    {n m r : Nat} (hsh : c.shape = [n, m]) (hr : r < n) :
    (ndReduce op c 1).data.getD r 0 =
      reduceList op ((List.range m).map (fun j => aget c [r, j])) := by
  show ((allIdx (c.shape.take 1 ++ c.shape.drop 2)).map (fun ix =>
    reduceList op ((List.range (c.shape.getD 1 0)).map
      (fun j => aget c (insAt 1 j ix))))).getD r 0 = _
  rw [hsh]
  have h1 : ([n, m].take 1 ++ [n, m].drop 2) = [n] := rfl
  have h2 : ([n, m] : List Nat).getD 1 0 = m := rfl
  rw [h1, h2]
  have hmem : [r] ∈ allIdx [n] :=
    mem_allIdx.mpr (List.Forall₂.cons hr List.Forall₂.nil)
  have hflat : flatIdx [n] [r] = r := by simp [flatIdx]
  conv_lhs => rw [← hflat]
  rw [map_allIdx_getD _ _ hmem]
  rfl

/-- Evaluation of `_make_reduction` on a two-dimensional `(origin, local)`
field with a same-shaped neighbor table: the guards pass, the table is
broadcast by identity slices, and each output entry reduces its masked
row. -/
theorem make_reduction_2d (op : Int → Int → Int) (initOp : NdArrayField → Int)
    (e l : Dimension) (re rl : UnitRange) (dty : DTypeKind)
    (v t : List Int) (n m : Nat)
    (hl : l.kind = DimensionKind.localDim)
    (he : e.kind ≠ DimensionKind.localDim)
    (htlen : t.length = n * m)
    (hfin : re.isFinite = true)
    (hrelen : re.len = n) :
    ∃ g, make_reduction op initOp ⟨[(e, re), (l, rl)], dty, ⟨[n, m], v⟩⟩ l
        ⟨[n, m], t⟩ e = .ok g ∧
      g.dom = [(e, re)] ∧ g.dty = dty ∧ g.arr.shape = [n] ∧
      ∀ r, r < n → g.arr.data.getD r 0 =
        maskedRowReduce op (initOp ⟨[(e, re), (l, rl)], dty, ⟨[n, m], v⟩⟩) t v m r := by
  have hne : e ≠ l := fun hc => he (by rw [hc, hl])
  have hguard2 : l ∈ dims ([(e, re), (l, rl)] : Domain) := by simp [dims]
  have hfilter : ((dims ([(e, re), (l, rl)] : Domain)).filter
      (fun d => decide (d.kind = DimensionKind.localDim))) = [l] := by
    simp [dims, List.filter, hl, he]
  have hidx : (dims ([(e, re), (l, rl)] : Domain)).findIdx
      (fun d => decide (d = l)) = 1 := by
    simp [dims, List.findIdx_cons, hne, decide_eq_false hne]
  have hnewdom : ([(e, re), (l, rl)] : Domain).filter
      (fun nr => decide (nr.1 ≠ l)) = [(e, re)] := by
    simp [List.filter, hne]
  have hbslice : (dims ([(e, re), (l, rl)] : Domain)).map (fun d =>
      if d = l ∨ d = e then AxisSel.slc none none else AxisSel.newaxis) =
      [AxisSel.slc none none, AxisSel.slc none none] := by
    simp [dims]
  have htb : ndIndex (⟨[n, m], t⟩ : NDArray Int)
      [AxisSel.slc none none, AxisSel.slc none none] = ⟨[n, m], t⟩ := by
    apply ndIndex_id
    · simpa using htlen
    · exact List.Forall₂.cons ⟨rfl, rfl⟩ (List.Forall₂.cons ⟨rfl, rfl⟩ List.Forall₂.nil)
  have hmain : make_reduction op initOp ⟨[(e, re), (l, rl)], dty, ⟨[n, m], v⟩⟩ l
      ⟨[n, m], t⟩ e =
      from_array (ndReduce op
        (ndZip (fun tv fv => if tv ≠ DEFAULT_SKIP_VALUE then fv
            else initOp ⟨[(e, re), (l, rl)], dty, ⟨[n, m], v⟩⟩)
          (⟨[n, m], t⟩ : NDArray Int) (⟨[n, m], v⟩ : NDArray Int)) 1)
        [(e, re)] dty := by
    unfold make_reduction
    rw [if_neg (not_not_intro hl)]
    rw [if_neg (not_not_intro hguard2)]
    rw [hfilter]
    rw [if_neg (by norm_num)]
    rw [hidx, hnewdom, hbslice]
    simp only [Bind.bind, Except.bind]
    rw [htb]
    rfl
  have hzsh : (ndZip (fun tv fv => if tv ≠ DEFAULT_SKIP_VALUE then fv
      else initOp ⟨[(e, re), (l, rl)], dty, ⟨[n, m], v⟩⟩)
      (⟨[n, m], t⟩ : NDArray Int) (⟨[n, m], v⟩ : NDArray Int)).shape = [n, m] := by
    show broadcastShape [n, m] [n, m] = [n, m]
    rw [broadcastShape, zipWith_max_self]
  have hfa := from_array_isOk (ndReduce op
      (ndZip (fun tv fv => if tv ≠ DEFAULT_SKIP_VALUE then fv
          else initOp ⟨[(e, re), (l, rl)], dty, ⟨[n, m], v⟩⟩)
        (⟨[n, m], t⟩ : NDArray Int) (⟨[n, m], v⟩ : NDArray Int)) 1)
    [(e, re)] dty
    (by rw [ndReduce_axis1_shape op _ hzsh]; rfl)
    (by rw [ndReduce_axis1_shape op _ hzsh]
        exact List.Forall₂.cons (Or.inr ⟨hfin, hrelen⟩) List.Forall₂.nil)
  refine ⟨⟨[(e, re)], dty, ndReduce op
      (ndZip (fun tv fv => if tv ≠ DEFAULT_SKIP_VALUE then fv
          else initOp ⟨[(e, re), (l, rl)], dty, ⟨[n, m], v⟩⟩)
        (⟨[n, m], t⟩ : NDArray Int) (⟨[n, m], v⟩ : NDArray Int)) 1⟩,
    ?_, rfl, rfl, ?_, ?_⟩
  · rw [hmain, hfa]
  · exact ndReduce_axis1_shape op _ hzsh
  · intro r hr
    show (ndReduce op _ 1).data.getD r 0 = _
    rw [ndReduce_axis1_entry op _ hzsh hr]
    unfold maskedRowReduce
    congr 1
    apply List.map_congr_left
    intro j hj
    have hjm : j < m := List.mem_range.mp hj
    have hstep : aget (ndZip (fun tv fv => if tv ≠ DEFAULT_SKIP_VALUE then fv
        else initOp ⟨[(e, re), (l, rl)], dty, ⟨[n, m], v⟩⟩)
        (⟨[n, m], t⟩ : NDArray Int) (⟨[n, m], v⟩ : NDArray Int)) [r, j] =
        (fun tv fv => if tv ≠ DEFAULT_SKIP_VALUE then fv
          else initOp ⟨[(e, re), (l, rl)], dty, ⟨[n, m], v⟩⟩)
          (aget (⟨[n, m], t⟩ : NDArray Int) [r, j])
          (aget (⟨[n, m], v⟩ : NDArray Int) [r, j]) := by
      show (ndZip _ _ _).data.getD (flatIdx (ndZip _ _ _).shape [r, j]) default = _
      rw [hzsh]
      exact ndZip_entry _ _ _ [n, m] rfl rfl (mem_allIdx_two hr hjm)
    rw [hstep]
    have hat : aget (⟨[n, m], t⟩ : NDArray Int) [r, j] = t.getD (r * m + j) 0 := by
      show t.getD (flatIdx [n, m] [r, j]) default = _
      rw [flatIdx_two]
      rfl
    have hav : aget (⟨[n, m], v⟩ : NDArray Int) [r, j] = v.getD (r * m + j) 0 := by
      show v.getD (flatIdx [n, m] [r, j]) default = _
      rw [flatIdx_two]
      rfl
    rw [hat, hav]
    simp only [ne_eq, ite_not]

/-- C3 (amended): for every 2-d field over an `(origin, local)` dimension
pair with a same-shaped neighbor table, the neighbor reductions mask the
table entries equal to the skip value with the reduction's initial value —
`0` for sum, the minimum of the field's array for max, the maximum of the
field's array for min (not the dtype's extrema) — before reducing along the
local axis, and the result domain drops the reduced dimension. -/
theorem claim_C3_theorem (e l : Dimension) (re rl : UnitRange)
    (dty : DTypeKind) (v t : List Int) (n m : Nat)
    (hl : l.kind = DimensionKind.localDim)
    (he : e.kind ≠ DimensionKind.localDim)
    (htlen : t.length = n * m)
    (hfin : re.isFinite = true)
    (hrelen : re.len = n) :
    (∃ g, neighbor_sum ⟨[(e, re), (l, rl)], dty, ⟨[n, m], v⟩⟩ l ⟨[n, m], t⟩ e =
        .ok g ∧
      g.dom = [(e, re)] ∧ g.dty = dty ∧ g.arr.shape = [n] ∧
      ∀ r, r < n → g.arr.data.getD r 0 =
        maskedRowReduce (· + ·) 0 t v m r) ∧
    (∃ g, max_over ⟨[(e, re), (l, rl)], dty, ⟨[n, m], v⟩⟩ l ⟨[n, m], t⟩ e =
        .ok g ∧
      g.dom = [(e, re)] ∧ g.dty = dty ∧ g.arr.shape = [n] ∧
      ∀ r, r < n → g.arr.data.getD r 0 =
        maskedRowReduce max (listIMin v) t v m r) ∧
    (∃ g, min_over ⟨[(e, re), (l, rl)], dty, ⟨[n, m], v⟩⟩ l ⟨[n, m], t⟩ e =
        .ok g ∧
      g.dom = [(e, re)] ∧ g.dty = dty ∧ g.arr.shape = [n] ∧
      ∀ r, r < n → g.arr.data.getD r 0 =
        maskedRowReduce min (listIMax v) t v m r) :=
  ⟨make_reduction_2d (· + ·) (fun _ => 0) e l re rl dty v t n m
      hl he htlen hfin hrelen,
    make_reduction_2d max (fun x => listIMin x.arr.data) e l re rl dty v t n m
      hl he htlen hfin hrelen,
    make_reduction_2d min (fun x => listIMax x.arr.data) e l re rl dty v t n m
      hl he htlen hfin hrelen⟩

/-- C3 witness: the amended reduction behavior at the concrete `2×2` field
and table. -/
theorem claim_C3_witness :
    (dimL.kind = DimensionKind.localDim ∧
      dimE.kind ≠ DimensionKind.localDim ∧
      ([0, -1, -1, -1] : List Int).length = 2 * 2 ∧
      (⟨.fin 0, .fin 2⟩ : UnitRange).isFinite = true ∧
      (⟨.fin 0, .fin 2⟩ : UnitRange).len = 2) ∧
    ((∃ g, neighbor_sum ⟨[(dimE, ⟨.fin 0, .fin 2⟩), (dimL, ⟨.fin 0, .fin 2⟩)],
          .int64K, ⟨[2, 2], [10, 20, 30, 40]⟩⟩ dimL
          ⟨[2, 2], [0, -1, -1, -1]⟩ dimE = .ok g ∧
      g.dom = [(dimE, ⟨.fin 0, .fin 2⟩)] ∧ g.dty = .int64K ∧
      g.arr.shape = [2] ∧
      ∀ r, r < 2 → g.arr.data.getD r 0 =
        maskedRowReduce (· + ·) 0 [0, -1, -1, -1] [10, 20, 30, 40] 2 r) ∧
    (∃ g, max_over ⟨[(dimE, ⟨.fin 0, .fin 2⟩), (dimL, ⟨.fin 0, .fin 2⟩)],
          .int64K, ⟨[2, 2], [10, 20, 30, 40]⟩⟩ dimL
          ⟨[2, 2], [0, -1, -1, -1]⟩ dimE = .ok g ∧
      g.dom = [(dimE, ⟨.fin 0, .fin 2⟩)] ∧ g.dty = .int64K ∧
      g.arr.shape = [2] ∧
      ∀ r, r < 2 → g.arr.data.getD r 0 =
        maskedRowReduce max (listIMin [10, 20, 30, 40]) [0, -1, -1, -1]
          [10, 20, 30, 40] 2 r) ∧
    (∃ g, min_over ⟨[(dimE, ⟨.fin 0, .fin 2⟩), (dimL, ⟨.fin 0, .fin 2⟩)],
          .int64K, ⟨[2, 2], [10, 20, 30, 40]⟩⟩ dimL
          ⟨[2, 2], [0, -1, -1, -1]⟩ dimE = .ok g ∧
      g.dom = [(dimE, ⟨.fin 0, .fin 2⟩)] ∧ g.dty = .int64K ∧
      g.arr.shape = [2] ∧
      ∀ r, r < 2 → g.arr.data.getD r 0 =
        maskedRowReduce min (listIMax [10, 20, 30, 40]) [0, -1, -1, -1]
          [10, 20, 30, 40] 2 r)) :=
  ⟨⟨rfl, by decide, rfl, rfl, rfl⟩,
    claim_C3_theorem dimE dimL ⟨.fin 0, .fin 2⟩ ⟨.fin 0, .fin 2⟩ .int64K
      [10, 20, 30, 40] [0, -1, -1, -1] 2 2 rfl (by decide) rfl rfl rfl⟩

/-- The box entry of axis `d`: the per-axis min/max bounding range. -/
theorem boxOf_getD {a : NDArray Int} {r : UnitRange} {d : Nat}
    (hd : d < a.shape.length) :
    (boxOf a r).getD d default =
      ⟨.fin (boxLo a r d : Int), .fin ((boxHi a r d : Int) + 1)⟩ := by
  unfold boxOf
  rw [List.getD_eq_getElem?_getD, List.getElem?_map, List.getElem?_range hd]
  rfl

/-- Componentwise characterization of `inBox`. -/
theorem inBox_iff {box : List UnitRange} {ix : List Nat}
    (hlen : ix.length = box.length) :
    inBox box ix = true ↔ ∀ d, d < box.length →
      (Bound.leI (box.getD d default).start ((ix.getD d 0 : Nat) : Int) &&
        Bound.gtI (box.getD d default).stop ((ix.getD d 0 : Nat) : Int)) = true := by
  induction box generalizing ix with
  | nil =>
    cases ix with
    | nil => simp [inBox]
    | cons _ _ => simp at hlen
  | cons b bs ih =>
    cases ix with
    | nil => simp at hlen
    | cons i is =>
      have hlen' : is.length = bs.length := by simpa using hlen
      simp only [inBox, List.zipWith_cons_cons, List.all_cons, Bool.and_eq_true, id]
      constructor
      · rintro ⟨h1, h2⟩ d hd
        cases d with
        | zero => simpa using h1
        | succ d' =>
          have := (ih hlen').mp (by simpa [inBox] using h2) d' (by simpa using hd)
          simpa using this
      · intro h
        constructor
        · simpa using h 0 (by simp)
        · have : inBox bs is = true := (ih hlen').mpr (fun d hd => by
            simpa using h (d + 1) (by simp only [List.length_cons]; omega))
          simpa [inBox] using this

/-- Membership in the selected positions. -/
theorem mem_selectedIdx {a : NDArray Int} {r : UnitRange} {ix : List Nat} :
    ix ∈ selectedIdx a r ↔ ix ∈ allIdx a.shape ∧ selectB a r ix = true := by
  unfold selectedIdx
  exact List.mem_filter

/-- One range per source dimension. -/
theorem boxOf_length (a : NDArray Int) (r : UnitRange) :
    (boxOf a r).length = a.shape.length := by
  simp [boxOf]

/-- Selected positions have full rank. -/
theorem selected_length {a : NDArray Int} {r : UnitRange} {ix : List Nat}
    (h : ix ∈ selectedIdx a r) : ix.length = a.shape.length :=
  (mem_allIdx.mp (mem_selectedIdx.mp h).1).length_eq

/-- Every selected position lies inside the bounding box. -/
theorem selected_inBox {a : NDArray Int} {r : UnitRange} :
    ∀ ix ∈ selectedIdx a r, inBox (boxOf a r) ix = true := by
  intro ix hmem
  have hlen : ix.length = (boxOf a r).length := by
    rw [boxOf_length]; exact selected_length hmem
  rw [inBox_iff hlen]
  intro d hd
  have hd' : d < a.shape.length := by rwa [boxOf_length] at hd
  rw [boxOf_getD hd']
  have hcoord : ix.getD d 0 ∈ (selectedIdx a r).map (fun ix => ix.getD d 0) :=
    List.mem_map.mpr ⟨ix, hmem, rfl⟩
  have hlo : boxLo a r d ≤ ix.getD d 0 := listMin_le hcoord
  have hhi : ix.getD d 0 ≤ boxHi a r d := le_listMax hcoord
  simp only [Bound.leI, Bound.gtI, Bool.and_eq_true, decide_eq_true_eq]
  constructor
  · exact_mod_cast hlo
  · have : ((ix.getD d 0 : Nat) : Int) ≤ (boxHi a r d : Int) := by exact_mod_cast hhi
    omega

/-- The bounding box is the smallest hypercube containing every selected
position: any per-axis cover encloses the box bounds. -/
theorem box_minimal {a : NDArray Int} {r : UnitRange}
    (hne : selectedIdx a r ≠ []) (lo hi : List Int)
    (hcover : ∀ ix ∈ selectedIdx a r, ∀ d, d < a.shape.length →
      lo.getD d 0 ≤ (ix.getD d 0 : Int) ∧ (ix.getD d 0 : Int) < hi.getD d 0) :
    ∀ d, d < a.shape.length →
      lo.getD d 0 ≤ (boxLo a r d : Int) ∧ (boxHi a r d : Int) < hi.getD d 0 := by
  intro d hd
  have hmapne : (selectedIdx a r).map (fun ix => ix.getD d 0) ≠ [] := by
    intro hc
    exact hne (List.map_eq_nil_iff.mp hc)
  constructor
  · obtain ⟨ix0, hmem0, heq0⟩ := List.mem_map.mp (listMin_mem hmapne)
    have := (hcover ix0 hmem0 d hd).1
    rw [heq0] at this
    exact this
  · obtain ⟨ix1, hmem1, heq1⟩ := List.mem_map.mp (listMax_mem hmapne)
    have := (hcover ix1 hmem1 d hd).2
    rw [heq1] at this
    exact this

/-- `_hypercube` returns the bounding box when every entry inside it is
selected or the skip value. -/
theorem hypercube_eq_some {a : NDArray Int} {r : UnitRange} {skip : Option Int}
    (hne : selectedIdx a r ≠ [])
    (hcond : ((allIdx a.shape).filter (inBox (boxOf a r))).all
      (selectedOrSkip a r skip) = true) :
    hypercube a r skip = pure (some (boxOf a r)) := by
  unfold hypercube
  rw [if_neg (by simp [List.isEmpty_eq_false, hne])]
  rw [if_pos hcond]

/-- `_hypercube` returns `None` when some entry inside the box is neither
selected nor the skip value. -/
theorem hypercube_eq_none {a : NDArray Int} {r : UnitRange} {skip : Option Int}
    (hne : selectedIdx a r ≠ [])
    (hcond : ((allIdx a.shape).filter (inBox (boxOf a r))).all
      (selectedOrSkip a r skip) = false) :
    hypercube a r skip = pure none := by
  unfold hypercube
  rw [if_neg (by simp [List.isEmpty_eq_false, hne])]
  rw [if_neg (by rw [hcond]; exact Bool.false_ne_true)]

/-- Successful `inverse_image`: the box translated to absolute ranges. -/
theorem inverse_image_eq_ok {c : NdArrayConnectivityField} {r : UnitRange}
    (hfin : r.isFinite = true)
    (hne : selectedIdx c.arr r ≠ [])
    (hcond : ((allIdx c.arr.shape).filter (inBox (boxOf c.arr r))).all
      (selectedOrSkip c.arr r c.skip) = true) :
    inverse_image c r = .ok (relativeRangesToDomain (boxOf c.arr r) c.dom) := by
  unfold inverse_image
  rw [if_neg (not_not_intro hfin), hypercube_eq_some hne hcond]
  rfl

/-- Failing `inverse_image`: the non-contiguous `ValueError`. -/
theorem inverse_image_eq_err {c : NdArrayConnectivityField} {r : UnitRange}
    (hfin : r.isFinite = true)
    (hne : selectedIdx c.arr r ≠ [])
    (hcond : ((allIdx c.arr.shape).filter (inBox (boxOf c.arr r))).all
      (selectedOrSkip c.arr r c.skip) = false) :
    inverse_image c r =
      .error (.valueError "Restriction generates non-contiguous dimensions.") := by
  unfold inverse_image
  rw [if_neg (not_not_intro hfin), hypercube_eq_none hne hcond]
  rfl

/-- C1 (amended): for every connectivity index array, finite target range
and skip value such that at least one entry lies in the target range,
`inverse_image` computes the per-axis bounding box of the positions whose
values lie in the target range (one range per source dimension, every
selected position inside it, the smallest such hypercube); it returns those
ranges translated to absolute source ranges when every entry inside the box
is selected or equal to the skip value, and fails with the non-contiguous
`ValueError` otherwise. -/
theorem claim_C1_theorem (c : NdArrayConnectivityField) (r : UnitRange)
    (hfin : r.isFinite = true)
    (hne : selectedIdx c.arr r ≠ []) :
    (boxOf c.arr r).length = c.arr.shape.length ∧
    (∀ ix ∈ selectedIdx c.arr r, inBox (boxOf c.arr r) ix = true) ∧
    (∀ lo hi : List Int,
      (∀ ix ∈ selectedIdx c.arr r, ∀ d, d < c.arr.shape.length →
        lo.getD d 0 ≤ (ix.getD d 0 : Int) ∧ (ix.getD d 0 : Int) < hi.getD d 0) →
      ∀ d, d < c.arr.shape.length →
        lo.getD d 0 ≤ (boxLo c.arr r d : Int) ∧
        (boxHi c.arr r d : Int) < hi.getD d 0) ∧
    (((allIdx c.arr.shape).filter (inBox (boxOf c.arr r))).all
        (selectedOrSkip c.arr r c.skip) = true →
      inverse_image c r = .ok (relativeRangesToDomain (boxOf c.arr r) c.dom)) ∧
    (((allIdx c.arr.shape).filter (inBox (boxOf c.arr r))).all
        (selectedOrSkip c.arr r c.skip) = false →
      inverse_image c r =
        .error (.valueError "Restriction generates non-contiguous dimensions.")) :=
  ⟨boxOf_length c.arr r,
    selected_inBox,
    fun lo hi hcover => box_minimal hne lo hi hcover,
    fun hcond => inverse_image_eq_ok hfin hne hcond,
    fun hcond => inverse_image_eq_err hfin hne hcond⟩

/-- C1 witness: the docstring example table at target range `[0,5)`; the
selection is nonempty and the inverse image is the `2×2` absolute box. -/
theorem claim_C1_witness :
    ((⟨.fin 0, .fin 5⟩ : UnitRange).isFinite = true ∧
      selectedIdx connD.arr ⟨.fin 0, .fin 5⟩ ≠ []) ∧
    ((boxOf connD.arr ⟨.fin 0, .fin 5⟩).length = connD.arr.shape.length ∧
    (∀ ix ∈ selectedIdx connD.arr ⟨.fin 0, .fin 5⟩,
      inBox (boxOf connD.arr ⟨.fin 0, .fin 5⟩) ix = true) ∧
    (∀ lo hi : List Int,
      (∀ ix ∈ selectedIdx connD.arr ⟨.fin 0, .fin 5⟩, ∀ d,
        d < connD.arr.shape.length →
        lo.getD d 0 ≤ (ix.getD d 0 : Int) ∧ (ix.getD d 0 : Int) < hi.getD d 0) →
      ∀ d, d < connD.arr.shape.length →
        lo.getD d 0 ≤ (boxLo connD.arr ⟨.fin 0, .fin 5⟩ d : Int) ∧
        (boxHi connD.arr ⟨.fin 0, .fin 5⟩ d : Int) < hi.getD d 0) ∧
    (((allIdx connD.arr.shape).filter
        (inBox (boxOf connD.arr ⟨.fin 0, .fin 5⟩))).all
        (selectedOrSkip connD.arr ⟨.fin 0, .fin 5⟩ connD.skip) = true →
      inverse_image connD ⟨.fin 0, .fin 5⟩ =
        .ok (relativeRangesToDomain (boxOf connD.arr ⟨.fin 0, .fin 5⟩) connD.dom)) ∧
    (((allIdx connD.arr.shape).filter
        (inBox (boxOf connD.arr ⟨.fin 0, .fin 5⟩))).all
        (selectedOrSkip connD.arr ⟨.fin 0, .fin 5⟩ connD.skip) = false →
      inverse_image connD ⟨.fin 0, .fin 5⟩ =
        .error (.valueError "Restriction generates non-contiguous dimensions."))) ∧
    inverse_image connD ⟨.fin 0, .fin 5⟩ =
      .ok [(dimA, ⟨.fin 0, .fin 2⟩), (dimB, ⟨.fin 0, .fin 2⟩)] :=
  ⟨⟨rfl, by decide⟩,
    claim_C1_theorem connD ⟨.fin 0, .fin 5⟩ rfl (by decide),
    rfl⟩

end G4
